import Mathlib

/-!
# Verification of the ComfyUI-Auto-Build builder scripts

A shallow embedding of the two builder scripts

  * `builder-scripts/apply_workflow_custom_nodes.py`
  * `builder-scripts/generate_workflow_dependencies.py`

together with theorems settling the specification claims about them.

Python strings are modelled as Lean `String`s manipulated through their
`List Char` data (Python `str` operations are re-implemented structurally so
that everything kernel-reduces).  Python dicts appearing in JSON data are
modelled as insertion-ordered association lists, Python sets as lists with
insert-if-absent discipline.  The filesystem, the git subprocess and the
regex engine are external collaborators and enter as explicit parameters
(an environment of functions); writes are recorded as an event trace.
-/

namespace AutoBuild

/-! ## String helpers (Python `str` operations on `List Char`) -/

/-- Python `str.lower` restricted to ASCII (all inputs exercised here are
ASCII; CPython lowercases the same way on them). -/
def lowerChar (c : Char) : Char :=
  if 'A' ≤ c ∧ c ≤ 'Z' then Char.ofNat (c.toNat + 32) else c

/-- Python `str.lower`. -/
def pyLower (s : String) : String := (s.data.map lowerChar).asString

/-- Python `str.strip()` (whitespace strip on both ends). -/
def pyStrip (s : String) : String :=
  (((s.data.dropWhile Char.isWhitespace).reverse.dropWhile Char.isWhitespace).reverse).asString

/-- Python `str.startswith(p)`. -/
def pyStartsWith (s p : String) : Bool := p.data.isPrefixOf s.data

/-- Python `str.endswith(p)`. -/
def pyEndsWith (s p : String) : Bool := p.data.isSuffixOf s.data

/-- `needle in haystack` for strings (substring containment). -/
def listInfix (pat : List Char) : List Char → Bool
  | [] => pat.isEmpty
  | c :: rest => pat.isPrefixOf (c :: rest) || listInfix pat rest

/-- Python `sub in s`. -/
def pyContains (s sub : String) : Bool := listInfix sub.data s.data

/-- Python `s.split(sep)[0]` for a one-character separator. -/
def takeUntilChar (s : String) (sep : Char) : String :=
  (s.data.takeWhile (· ≠ sep)).asString

/-- Python `s.rsplit(sep, 1)[-1]` for a one-character separator:
the substring after the last occurrence of `sep` (the whole string if
`sep` does not occur). -/
def takeAfterLastChar (s : String) (sep : Char) : String :=
  ((s.data.reverse.takeWhile (· ≠ sep)).reverse).asString

/-- Python `s.rstrip(c)` for a single strip character. -/
def pyRStripChar (s : String) (c : Char) : String :=
  ((s.data.reverse.dropWhile (· = c)).reverse).asString

/-- Python `s.strip(c)` for a single strip character. -/
def pyStripChar (s : String) (c : Char) : String :=
  (((s.data.dropWhile (· = c)).reverse.dropWhile (· = c)).reverse).asString

/-- Python `s.replace(a, b)` for one-character `a`, `b`. -/
def pyReplaceChar (s : String) (a b : Char) : String :=
  (s.data.map (fun c => if c = a then b else c)).asString

/-- Python code-point comparison `a < b` on strings (lexicographic). -/
def charListLt : List Char → List Char → Bool
  | [], [] => false
  | [], _ :: _ => true
  | _ :: _, [] => false
  | a :: as, b :: bs => if a < b then true else if b < a then false else charListLt as bs

/-- Python `a <= b` on strings. -/
def strLe (a b : String) : Bool := !(charListLt b.data a.data)

/-- Insertion into a list sorted by `le`. -/
def insertBy {α : Type} (le : α → α → Bool) (x : α) : List α → List α
  | [] => [x]
  | y :: ys => if le x y then x :: y :: ys else y :: insertBy le x ys

/-- Insertion sort by `le`; models Python `sorted` (a correct stable sort). -/
def sortBy {α : Type} (le : α → α → Bool) : List α → List α
  | [] => []
  | x :: xs => insertBy le x (sortBy le xs)

/-- Python `sorted` on strings. -/
def sortStrings (l : List String) : List String := sortBy strLe l

/-! ## Decimal printing of naturals (Python f-string `{idx}`) with
injectivity, needed for the slug-collision arguments. -/

/-- One decimal digit as a character. -/
def decDigit (n : Nat) : Char := Char.ofNat (48 + n)

/-- Little-endian decimal digits of `n`, driven by fuel (`fuel ≥ n` suffices). -/
def decDigitsRev (fuel : Nat) (n : Nat) : List Nat :=
  match fuel with
  | 0 => []
  | f + 1 => if n = 0 then [] else (n % 10) :: decDigitsRev f (n / 10)

/-- Decimal rendering of a natural number (Python `str(n)` / `f"{n}"`). -/
def natRepr (n : Nat) : String :=
  if n = 0 then "0" else (((decDigitsRev n n).reverse).map decDigit).asString

/-- Value of a little-endian digit list. -/
def ofDigitsRev : List Nat → Nat
  | [] => 0
  | d :: ds => d + 10 * ofDigitsRev ds

/-- The big-endian digit list underlying `natRepr`. -/
def reprDigits (n : Nat) : List Nat :=
  if n = 0 then [0] else (decDigitsRev n n).reverse

/-! ## JSON values and Python dicts

Parsed JSON data (as handed around by the scripts after `json.loads`) is
modelled by `J`.  Python dicts are insertion-ordered association lists with
unique keys maintained by `dictSet`. -/

inductive J where
  | null
  | bool (b : Bool)
  | num (n : Int)
  | str (s : String)
  | arr (xs : List J)
  | obj (kvs : List (String × J))

/-- Python `d.get(k)` (`None` when absent). -/
def dictGet : List (String × J) → String → Option J
  | [], _ => none
  | (k', v) :: rest, k => if k' = k then some v else dictGet rest k

/-- Python `d[k] = v` (replace in place, else append). -/
def dictSet : List (String × J) → String → J → List (String × J)
  | [], k, v => [(k, v)]
  | (k', v') :: rest, k, v =>
      if k' = k then (k, v) :: rest else (k', v') :: dictSet rest k v

/-- Python `d.setdefault(k, v)`. -/
def dictSetdefault (d : List (String × J)) (k : String) (v : J) : List (String × J) :=
  if (dictGet d k).isSome then d else d ++ [(k, v)]

/-- Python `d.update(new)`. -/
def dictUpdate (d new : List (String × J)) : List (String × J) :=
  new.foldl (fun acc kv => dictSet acc kv.1 kv.2) d

/-- Python `k in d`. -/
def dictHas (d : List (String × J)) (k : String) : Bool := (dictGet d k).isSome

/-- Python truthiness of a JSON value. -/
def J.truthy : J → Bool
  | .null => false
  | .bool b => b
  | .num n => decide (n ≠ 0)
  | .str s => !s.data.isEmpty
  | .arr xs => !xs.isEmpty
  | .obj kvs => !kvs.isEmpty

mutual
/-- Python `repr` of a JSON value (quote escaping inside strings is not
modelled; no theorem evaluates this on strings containing quotes). -/
def pyRepr : J → String
  | .null => "None"
  | .bool b => if b then "True" else "False"
  | .num n => if n < 0 then "-" ++ natRepr n.natAbs else natRepr n.natAbs
  | .str s => "'" ++ s ++ "'"
  | .arr xs => "[" ++ pyReprList xs ++ "]"
  | .obj kvs => "\x7b" ++ pyReprObj kvs ++ "\x7d"

/-- `", ".join(repr(x) for x in xs)`. -/
def pyReprList : List J → String
  | [] => ""
  | [x] => pyRepr x
  | x :: y :: rest => pyRepr x ++ ", " ++ pyReprList (y :: rest)

/-- `", ".join(f"bare-repr of key: value" for items)`. -/
def pyReprObj : List (String × J) → String
  | [] => ""
  | [kv] => "'" ++ kv.1 ++ "': " ++ pyRepr kv.2
  | kv :: kv' :: rest => "'" ++ kv.1 ++ "': " ++ pyRepr kv.2 ++ ", " ++ pyReprObj (kv' :: rest)
end

/-- Python `str` of a JSON value. -/
def pyStr : J → String
  | .str s => s
  | v => pyRepr v

/-! ## `apply_workflow_custom_nodes.py` — requirement/plan data model -/

/-- `GIT_CLONE_FLAGS` (module constant, line 23). -/
def GIT_CLONE_FLAGS : List String :=
  ["--depth=1", "--no-tags", "--recurse-submodules", "--shallow-submodules"]

/-- `RequirementEntry` (line 31).  `kind` is one of `"package"`, `"vcs"`,
`"other"`, kept as a string as in the source. -/
structure RequirementEntry where
  original : String
  kind : String
  key : String
deriving DecidableEq, Repr

/-- `PluginPlan` (line 38).  Requirement-file paths are strings. -/
structure PluginPlan where
  plugin_id : String
  nodes : List String
  repo_url : Option String
  slug : Option String
  reason : Option String
  status : String := "planned"
  message : Option String := none
  requirements : List String := []
deriving DecidableEq, Repr

/-- `normalize_git_url` (line 96). -/
def normalize_git_url (candidate : Option String) : Option String :=
  match candidate with
  | none => none
  | some c =>
      let url := pyStrip c
      if url.data.isEmpty then none
      else
        let url := if pyStartsWith url "git+" then (url.data.drop 4).asString else url
        let lowered := pyLower url
        if (pyStartsWith lowered "http://" || pyStartsWith lowered "https://" ||
            pyStartsWith lowered "ssh://") || (takeUntilChar url '/').data.contains '@'
        then some url
        else none

/-- Character class `[a-zA-Z0-9._-]` of `slugify`'s regex. -/
def slugChar (c : Char) : Bool :=
  (('a' ≤ c ∧ c ≤ 'z') || ('A' ≤ c ∧ c ≤ 'Z') || ('0' ≤ c ∧ c ≤ '9')) ||
    c = '.' || c = '_' || c = '-'

/-- `re.sub(r"[^a-zA-Z0-9._-]+", "-", ...)`: each maximal run of characters
outside the class becomes a single hyphen.  `prevBad` records whether the
previous character was part of such a run. -/
def slugSubAux (prevBad : Bool) : List Char → List Char
  | [] => []
  | c :: rest =>
      if slugChar c then c :: slugSubAux false rest
      else if prevBad then slugSubAux true rest
      else '-' :: slugSubAux true rest

/-- `slugify` (line 110). -/
def slugify (name : String) : String :=
  let cleaned := pyLower (pyStripChar (slugSubAux false name.data).asString '-')
  if cleaned.data.isEmpty then "custom-node" else cleaned

/-- The body of `ensure_unique_slug`'s `while True` loop (lines 119-125).
The loop always terminates because `existing` is finite; the fuel
`existing.length + 1` is sufficient by pigeonhole (`findFree_not_mem` /
`free_candidate_exists` below), so the `0` case is never reached. -/
def findFree (slug : String) (existing : List String) : Nat → Nat → String
  | idx, 0 => slug ++ "-" ++ natRepr idx
  | idx, fuel + 1 =>
      let candidate := slug ++ "-" ++ natRepr idx
      if candidate ∈ existing then findFree slug existing (idx + 1) fuel else candidate

/-- `ensure_unique_slug` (line 115).  The source mutates the set `existing`;
here the updated set is returned alongside the chosen slug. -/
def ensure_unique_slug (slug : String) (existing : List String) : String × List String :=
  if slug ∈ existing then
    let c := findFree slug existing 2 (existing.length + 1)
    (c, c :: existing)
  else (slug, slug :: existing)

/-- `derive_slug` (line 128). -/
def derive_slug (repo_url : String) (used : List String) : String × List String :=
  let cleaned := pyRStripChar (takeUntilChar repo_url '?') '/'
  let cleaned :=
    if pyEndsWith cleaned ".git" then (cleaned.data.take (cleaned.data.length - 4)).asString
    else cleaned
  let slug_part := takeAfterLastChar cleaned '/'
  ensure_unique_slug (slugify slug_part) used

/-- The base slug `slugify(slug_part)` that `derive_slug` feeds into
`ensure_unique_slug`, before any collision suffixing. -/
def baseSlug (repo_url : String) : String :=
  let cleaned := pyRStripChar (takeUntilChar repo_url '?') '/'
  let cleaned :=
    if pyEndsWith cleaned ".git" then (cleaned.data.take (cleaned.data.length - 4)).asString
    else cleaned
  slugify (takeAfterLastChar cleaned '/')

/-- Python iteration `list(x)`: lists iterate elements, strings iterate
one-character strings, dicts iterate keys; other values raise `TypeError`
(returned as `none`; the claims' theorems restrict to non-raising inputs). -/
def pyListOf : J → Option (List J)
  | .arr xs => some xs
  | .str s => some (s.data.map (fun c => J.str ([c].asString)))
  | .obj kvs => some (kvs.map (fun kv => J.str kv.1))
  | _ => none

/-- `x.get(k)` on a parsed JSON value (`AttributeError` on non-dicts is
outside the modelled domain; the theorems' well-formedness hypotheses require
the deps document to be an object). -/
def jGet (d : J) (k : String) : Option J :=
  match d with
  | .obj kvs => dictGet kvs k
  | _ => none

/-- `isinstance(x, Sequence)` together with iteration: lists and strings are
`Sequence`s (dicts and scalars are not). -/
def seqItems : J → Option (List J)
  | .arr xs => some xs
  | .str s => some (s.data.map (fun c => J.str ([c].asString)))
  | _ => none

/-- The metadata key scan of `plan_plugins` (lines 154-159): the first key
whose string value normalizes wins, with reason `metadata.<key>`. -/
def firstMetaRepo : List String → List (String × J) → Option (String × String)
  | [], _ => none
  | k :: ks, m =>
      match normalize_git_url (match dictGet m k with | some (J.str s) => some s | _ => none) with
      | some u => some (u, "metadata." ++ k)
      | none => firstMetaRepo ks m

/-- The keys probed by `plan_plugins`, in source order (line 154). -/
def repoMetaKeys : List String := ["repo", "repository", "github", "git", "url", "homepage"]

/-- The stripped `plugin_id` of a plugin entry (line 148). -/
def entryId (kvs : List (String × J)) : String :=
  pyStrip (pyStr ((dictGet kvs "id").getD (J.str "")))

/-- Repository-URL derivation of the `plan_plugins` loop body (lines
151-164): the metadata key scan first, then the plugin id itself; paired
with the recorded `reason`. -/
def planRepo (kvs : List (String × J)) : Option (String × String) :=
  match (match dictGet kvs "metadata" with
         | some (J.obj m) => firstMetaRepo repoMetaKeys m
         | _ => none) with
  | some r => some r
  | none =>
      match normalize_git_url (some (entryId kvs)) with
      | some u => some (u, "plugin_id")
      | none => none

/-- One iteration of the `plan_plugins` loop body for a dict entry
(lines 148-175), threading the `used_slugs` set. -/
def mkPlan (kvs : List (String × J)) (used : List String) : PluginPlan × List String :=
  let plugin_id := entryId kvs
  let nodes := ((pyListOf ((dictGet kvs "nodes").getD (J.arr []))).getD []).filterMap
    (fun v => match v with | J.str s => some s | _ => none)
  match planRepo kvs with
  | some (url, reason) =>
      let (slug, used') := derive_slug url used
      ({ plugin_id := if plugin_id.data.isEmpty then "<unknown>" else plugin_id,
         nodes := nodes, repo_url := some url, slug := some slug,
         reason := some reason }, used')
  | none =>
      ({ plugin_id := if plugin_id.data.isEmpty then "<unknown>" else plugin_id,
         nodes := nodes, repo_url := none, slug := none, reason := none }, used)

/-- The `plan_plugins` loop over the entries of `deps["plugins"]`
(lines 145-175); non-dict entries are skipped. -/
def planList : List J → List String → List PluginPlan
  | [], _ => []
  | e :: rest, used =>
      match e with
      | J.obj kvs =>
          let (p, used') := mkPlan kvs used
          p :: planList rest used'
      | _ => planList rest used

/-- `plan_plugins` (line 136). -/
def plan_plugins (deps : J) : List PluginPlan × List String :=
  let rawUnresolved := (jGet deps "unresolved_nodes").getD (J.arr [])
  let rawUnresolved := if rawUnresolved.truthy then rawUnresolved else J.arr []
  let unresolved_nodes := ((pyListOf rawUnresolved).getD []).map pyStr
  match seqItems ((jGet deps "plugins").getD J.null) with
  | none => ([], unresolved_nodes)
  | some items => (planList items [], unresolved_nodes)

/-! ### Materialization (`clone_plugin`, `find_requirement_files`) -/

/-- Outcome of the external `git clone` collaborator for one target. -/
inductive FetchOutcome where
  | ok
  | toolMissing
  | cmdFailed (stderr : String)
deriving DecidableEq, Repr

/-- `write_summary`'s per-plugin record (lines 319-328). -/
structure SummaryPlugin where
  id : String
  repo_url : Option String
  slug : Option String
  nodes : List String
  status : String
  reason : Option String
  message : Option String
  requirements_files : List String
deriving DecidableEq, Repr

/-- The summary JSON document written by `write_summary` (line 317). -/
structure Summary where
  workflow_plugins : List SummaryPlugin
  unresolved_nodes : List String
  collected_requirements : List String
deriving DecidableEq, Repr

/-- Observable side effects of the pipeline, in program order. -/
inductive Event where
  | mkdirParent (path : String)
  | fetch (cmd : List String)
  | reqWrite (path : String) (lines : List String)
  | reqRemove (path : String)
  | summaryWrite (path : String) (summary : Summary)
deriving DecidableEq, Repr

/-- The filesystem/subprocess collaborators seen by `clone_plugin`. -/
structure CloneEnv where
  root : String
  /-- `(root/slug).exists()`. -/
  targetExists : String → Bool
  /-- Directory entries (name, is-regular-file) of `root/slug` once
  materialized (pre-existing or after a successful clone). -/
  listing : String → List (String × Bool)
  /-- Result of running `git clone` for this slug. -/
  fetch : String → FetchOutcome

/-- `find_requirement_files` (line 209): every directory entry matching the
glob `requirements*` (i.e. whose name starts with `requirements`), sorted,
filtered to regular files — plus, redundantly, the extension-less file
literally named `requirements` when present. -/
def find_requirement_files (dirPath : String) (listing : List (String × Bool)) : List String :=
  let globbed := sortBy (fun a b => strLe a.1 b.1)
    (listing.filter (fun e => pyStartsWith e.1 "requirements"))
  let results := (globbed.filter (·.2)).map (fun e => dirPath ++ "/" ++ e.1)
  if listing.any (fun e => e.1 = "requirements" && e.2) then
    results ++ [dirPath ++ "/requirements"]
  else results

/-- `clone_plugin` (line 180), returning the updated plan and the side
effects it performed. -/
def clone_plugin (plan : PluginPlan) (env : CloneEnv) : PluginPlan × List Event :=
  match plan.repo_url, plan.slug with
  | some url, some slug =>
      let target := env.root ++ "/" ++ slug
      if env.targetExists slug then
        ({ plan with
             status := "skipped"
             message := some "目录已存在，跳过克隆"
             requirements := find_requirement_files target (env.listing slug) }, [])
      else
        let cmd := ["git", "clone"] ++ GIT_CLONE_FLAGS ++ [url, target]
        let evs := [Event.mkdirParent env.root, Event.fetch cmd]
        match env.fetch slug with
        | .ok =>
            ({ plan with
                 status := "cloned"
                 requirements := find_requirement_files target (env.listing slug) }, evs)
        | .toolMissing =>
            ({ plan with status := "failed", message := some "未找到 git 可执行文件" }, evs)
        | .cmdFailed stderr =>
            let msg := if (pyStrip stderr).data.isEmpty then "git clone 执行失败" else pyStrip stderr
            ({ plan with status := "failed", message := some msg }, evs)
  | _, _ => ({ plan with status := "skipped", message := some "未找到可用的仓库地址" }, [])

/-- The materialization loop of `main` (lines 361-371), restricted to its
plan/effect content. -/
def clonePlans : List PluginPlan → CloneEnv → List PluginPlan × List Event
  | [], _ => ([], [])
  | p :: rest, env =>
      let (p', e) := clone_plugin p env
      let (ps, evs) := clonePlans rest env
      (p' :: ps, e ++ evs)

/-! ### Requirement parsing and aggregation -/

/-- Character class `[A-Za-z0-9_.-]` of `REQ_PATTERN`'s name group. -/
def reqNameChar (c : Char) : Bool :=
  (('a' ≤ c ∧ c ≤ 'z') || ('A' ≤ c ∧ c ≤ 'Z') || ('0' ≤ c ∧ c ≤ '9')) ||
    c = '_' || c = '.' || c = '-'

/-- Character class `[A-Za-z0-9_,.-]` of `REQ_PATTERN`'s extras group. -/
def reqExtrasChar (c : Char) : Bool := reqNameChar c || c = ','

/-- `REQ_PATTERN.match(stripped)` (line 220), returning `group(1)`:
a leading run of name characters, optionally followed by a complete
bracketed extras suffix. -/
def reqPatternMatch (stripped : String) : Option String :=
  let cs := stripped.data
  let name := cs.takeWhile reqNameChar
  if name.isEmpty then none
  else
    let rest := cs.drop name.length
    match rest with
    | '[' :: tail =>
        let ex := tail.takeWhile reqExtrasChar
        if !ex.isEmpty && (tail.drop ex.length).head? = some ']' then
          some ((name ++ '[' :: (ex ++ [']'])).asString)
        else some name.asString
    | _ => some name.asString

/-- `parse_requirement_line` (line 223). -/
def parse_requirement_line (line : String) : Option RequirementEntry :=
  let stripped := pyStrip line
  if stripped.data.isEmpty || pyStartsWith stripped "#" then none
  else
    let lowered := pyLower stripped
    if pyStartsWith lowered "-r " || pyStartsWith lowered "--requirement" ||
       pyStartsWith lowered "--requirements" || pyStartsWith lowered "-c " ||
       pyStartsWith lowered "--constraint" then none
    else if pyContains lowered "git+" || pyStartsWith lowered "-e " ||
        pyStartsWith lowered "--editable" then
      some ⟨stripped, "vcs", lowered⟩
    else if stripped.data.contains '@' then
      let base := pyStrip (takeUntilChar stripped '@')
      some ⟨stripped, "package", pyLower (pyReplaceChar base '_' '-')⟩
    else
      match reqPatternMatch stripped with
      | none => some ⟨stripped, "other", lowered⟩
      | some base => some ⟨stripped, "package", pyLower (pyReplaceChar base '_' '-')⟩

/-- Set insertion (Python `set.add`; only membership is ever observed). -/
def insertIfAbsent (x : String) (l : List String) : List String :=
  if x ∈ l then l else l ++ [x]

/-- `load_known_requirements` (line 244).  Each baseline file is `none` when
missing or unreadable (both are skipped by the source), else its lines. -/
def load_known_requirements (files : List (Option (List String))) : List String × List String :=
  files.foldl
    (fun st file =>
      match file with
      | none => st
      | some lines =>
          lines.foldl
            (fun st line =>
              match parse_requirement_line line with
              | none => st
              | some e =>
                  if e.kind = "package" then (insertIfAbsent e.key st.1, st.2)
                  else if e.kind = "vcs" then (st.1, insertIfAbsent e.key st.2)
                  else st)
            st)
    ([], [])

/-- Mutable aggregation state of `collect_requirements`:
`current_packages`, `current_vcs`, and the emitted lines. -/
structure CollectSt where
  packages : List String
  vcs : List String
  collected : List String
deriving Repr

/-- One line of the inner loop of `collect_requirements` (lines 283-300). -/
def collectLine (st : CollectSt) (line : String) : CollectSt :=
  match parse_requirement_line line with
  | none => st
  | some e =>
      if e.kind = "package" then
        if e.key ∈ st.packages then st
        else { st with
                 packages := insertIfAbsent e.key st.packages
                 collected := st.collected ++ [e.original] }
      else if e.kind = "vcs" then
        if e.key ∈ st.vcs then st
        else { st with
                 vcs := insertIfAbsent e.key st.vcs
                 collected := st.collected ++ [e.original] }
      else
        let identifier := e.kind ++ ":" ++ e.key
        if identifier ∈ st.vcs then st
        else { st with
                 vcs := insertIfAbsent identifier st.vcs
                 collected := st.collected ++ [e.original] }

/-- One requirement file of `collect_requirements` (lines 278-282):
unreadable files are skipped. -/
def collectFile (readFile : String → Option (List String)) (st : CollectSt) (path : String) :
    CollectSt :=
  match readFile path with
  | none => st
  | some lines => lines.foldl collectLine st

/-- `collect_requirements` (line 265), as the pure list of emitted lines
(the write/remove of the output file is an event of `mainRun`). -/
def collect_requirements (plans : List PluginPlan) (readFile : String → Option (List String))
    (knownPackages knownVcs : List String) : List String :=
  (plans.foldl
    (fun (st : CollectSt) (plan : PluginPlan) =>
      if plan.status = "cloned" || plan.status = "skipped" then
        plan.requirements.foldl (collectFile readFile) st
      else st)
    (⟨knownPackages, knownVcs, []⟩ : CollectSt)).collected

/-- `write_summary`'s document construction (lines 317-333). -/
def write_summary (plans : List PluginPlan) (unresolved collected : List String) : Summary :=
  { workflow_plugins := plans.map (fun p =>
      { id := p.plugin_id, repo_url := p.repo_url, slug := p.slug, nodes := p.nodes,
        status := p.status, reason := p.reason, message := p.message,
        requirements_files := p.requirements }),
    unresolved_nodes := unresolved,
    collected_requirements := collected }

/-! ### `main` (line 338) -/

/-- The collaborators `main` interacts with.  `deps` is the parsed content of
the dependency manifest (`load_json` aborts before the pipeline when the file
is unreadable, which is outside the pipeline modelled here). -/
structure MainEnv where
  depsExists : Bool
  deps : J
  cloneEnv : CloneEnv
  /-- `read_text().splitlines()` for plugin requirement files (`none`:
  unreadable). -/
  readFile : String → Option (List String)
  /-- pak3 baseline (`none`: missing or unreadable). -/
  pak3 : Option (List String)
  /-- pak7 baseline (`none`: missing or unreadable). -/
  pak7 : Option (List String)
  /-- `requirements_output.exists()`. -/
  reqOutputExists : Bool
  reqOutputPath : String
  summaryPath : String

/-- Result of a `main` run: ordered side effects plus the process exit code
(`sys.exit(1)` → 1; falling off the end → 0). -/
structure MainResult where
  trace : List Event
  exitCode : Nat
deriving Repr

/-- The plans as materialized by `main`'s loop ([] when the early-return
branches are taken). -/
def mainProcessed (env : MainEnv) : List PluginPlan :=
  if !env.depsExists then []
  else
    let plans := (plan_plugins env.deps).1
    if plans.isEmpty then []
    else (clonePlans plans env.cloneEnv).1

/-- `main` (line 338).  Console prints are not modelled; file writes,
directory creation and subprocess invocations appear in the trace in program
order. -/
def mainRun (env : MainEnv) : MainResult :=
  if !env.depsExists then ⟨[], 0⟩
  else
    let (plans, unresolved) := plan_plugins env.deps
    if plans.isEmpty then
      let evs := if env.reqOutputExists then [Event.reqRemove env.reqOutputPath] else []
      ⟨evs ++ [Event.summaryWrite env.summaryPath (write_summary [] unresolved [])], 0⟩
    else
      let (processed, cloneEvents) := clonePlans plans env.cloneEnv
      let missing_repos := processed.countP (fun p => p.repo_url = none)
      let clone_failures := processed.countP (fun p => p.status = "failed")
      let (kp, kv) := load_known_requirements [env.pak3, env.pak7]
      let collected := collect_requirements processed env.readFile kp kv
      let reqEvents :=
        if !collected.isEmpty then [Event.reqWrite env.reqOutputPath collected]
        else if env.reqOutputExists then [Event.reqRemove env.reqOutputPath] else []
      let trace := [Event.mkdirParent env.cloneEnv.root] ++ cloneEvents ++ reqEvents ++
        [Event.summaryWrite env.summaryPath (write_summary processed unresolved collected)]
      ⟨trace, if 0 < missing_repos + clone_failures then 1 else 0⟩

/-! ## `generate_workflow_dependencies.py` — catalog builder and resolver -/

/-- Generic association-list lookup (Python dict `.get`, first binding wins;
the modelled dicts keep keys unique). -/
def assocGet {α : Type} : List (String × α) → String → Option α
  | [], _ => none
  | (k', v) :: rest, k => if k' = k then some v else assocGet rest k

/-- Generic Python dict assignment `d[k] = v`. -/
def assocSet {α : Type} : List (String × α) → String → α → List (String × α)
  | [], k, v => [(k, v)]
  | (k', v') :: rest, k, v =>
      if k' = k then (k, v) :: rest else (k', v') :: assocSet rest k v

/-- `defaultdict(list)` append: `d[k].append(v)`. -/
def assocAppend (l : List (String × List String)) (k v : String) : List (String × List String) :=
  match assocGet l k with
  | some vs => assocSet l k (vs ++ [v])
  | none => l ++ [(k, [v])]

/-- `d.get(k, [])` for list-valued dicts. -/
def lookupList (l : List (String × List String)) (k : String) : List String :=
  (assocGet l k).getD []

/-- The two shapes of a raw catalog value (lines 227-234): a non-empty list
`[node-names, metadata?]`, or a bare metadata object; anything else leaves
both components empty. -/
def parseVal (value : J) : List String × List (String × J) :=
  match value with
  | .arr (first :: rest) =>
      let nodes := match first with
        | J.arr items => items.filterMap (fun v => match v with | J.str s => some s | _ => none)
        | _ => []
      let metadata := match rest with
        | (J.obj m) :: _ => m
        | _ => []
      (nodes, metadata)
  | .obj m => ([], m)
  | _ => ([], [])

/-- Canonical id of a raw catalog id (lines 236-241): the directory entry's
non-empty string `reference`, else the raw id itself. -/
def canonicalOf (cat : List (String × List (String × J))) (raw_id : String) : String :=
  match assocGet cat raw_id with
  | some entry =>
      match dictGet entry "reference" with
      | some (J.str r) => if r.data.isEmpty then raw_id else r
      | _ => raw_id
  | none => raw_id

/-- `combined_metadata` for one raw entry (lines 242-254): a copy of the
catalog metadata enriched by `setdefault`s from the directory entry
(`d.get(k)` of an absent key contributes Python `None`, modelled `J.null`). -/
def combineMeta (cat : List (String × List (String × J))) (raw_id : String)
    (metadata : List (String × J)) : List (String × J) :=
  match assocGet cat raw_id with
  | none => metadata
  | some entry =>
      let cm := metadata
      let cm := dictSetdefault cm "reference" ((dictGet entry "reference").getD J.null)
      let cm := dictSetdefault cm "author" ((dictGet entry "author").getD J.null)
      let cm := dictSetdefault cm "title" ((dictGet entry "title").getD J.null)
      let cm := dictSetdefault cm "install_type" ((dictGet entry "install_type").getD J.null)
      let description := (dictGet entry "description").getD J.null
      let cm := if description.truthy && !(dictHas cm "description") then
          dictSet cm "description" description
        else cm
      match (dictGet entry "files").getD J.null with
      | J.arr items =>
          dictSetdefault cm "files"
            (J.arr (items.filter (fun v => match v with | J.str _ => true | _ => false)))
      | _ => cm

/-- `{k: v for k, v in combined.items() if v is not None}` (line 259). -/
def filterNonNull (kvs : List (String × J)) : List (String × J) :=
  kvs.filter (fun kv => match kv.2 with | J.null => false | _ => true)

/-- `node_to_plugins[node.strip()].append(canonical_id)` over an entry's
node list (lines 264-267). -/
def ntpAdd (canonical_id : String) (ntp : List (String × List String)) :
    List String → List (String × List String)
  | [] => ntp
  | node_name :: rest =>
      let normalized := pyStrip node_name
      if normalized.data.isEmpty then ntpAdd canonical_id ntp rest
      else ntpAdd canonical_id (assocAppend ntp normalized canonical_id) rest

/-- State accumulated by `load_extension_node_map` (lines 217-221).
Compiled regexes are kept as their pattern strings (the regex engine is an
external collaborator entering via `compileOk` / match functions). -/
structure CatalogSt where
  node_to_plugins : List (String × List String)
  plugin_metadata : List (String × List (String × J))
  preemption_map : List (String × String)
  pattern_entries : List (String × String)
  comfy_nodes : List String

/-- One iteration of the `load_extension_node_map` loop (lines 223-284). -/
def catalogStep (cat : List (String × List (String × J))) (compileOk : String → Bool)
    (st : CatalogSt) (raw : String × J) : CatalogSt :=
  let raw_plugin_id := raw.1
  let (nodes, metadata) := parseVal raw.2
  let canonical_id := canonicalOf cat raw_plugin_id
  let combined := combineMeta cat raw_plugin_id metadata
  -- `if existing_meta:` (line 257) is a truthiness test: a missing OR empty
  -- stored dict takes the replace-wholesale branch (null values kept); only
  -- a non-empty stored dict takes the update-with-non-null-values branch.
  let pm := match assocGet st.plugin_metadata canonical_id with
    | some existing =>
        if existing.isEmpty then assocSet st.plugin_metadata canonical_id combined
        else
          assocSet st.plugin_metadata canonical_id (dictUpdate existing (filterNonNull combined))
    | none => assocSet st.plugin_metadata canonical_id combined
  let ntp := ntpAdd canonical_id st.node_to_plugins nodes
  let comfy := if canonical_id = "https://github.com/comfyanonymous/ComfyUI" then
      nodes.foldl (fun acc n => insertIfAbsent (pyStrip n) acc) st.comfy_nodes
    else st.comfy_nodes
  let pre := match dictGet metadata "preemptions" with
    | some (J.arr items) =>
        items.foldl
          (fun acc it => match it with
            | J.str s => assocSet acc s canonical_id
            | _ => acc)
          st.preemption_map
    | _ => st.preemption_map
  let pats := match dictGet metadata "nodename_pattern" with
    | some (J.str p) =>
        if !p.data.isEmpty && compileOk p then st.pattern_entries ++ [(p, canonical_id)]
        else st.pattern_entries
    | _ => st.pattern_entries
  ⟨ntp, pm, pre, pats, comfy⟩

/-- `load_extension_node_map` (line 207) over the object items of the raw
node map. -/
def load_extension_node_map (raw_data : List (String × J))
    (cat : List (String × List (String × J))) (compileOk : String → Bool) : CatalogSt :=
  raw_data.foldl (catalogStep cat compileOk) ⟨[], [], [], [], []⟩

/-! ### Resolver (`resolve_dependencies`, line 289) -/

/-- The built-in test of line 303: membership in the built-in set, or a
built-in pattern `search` hit. -/
def isBuiltin (builtin_nodes : List String) (builtin_patterns : List (String → Bool))
    (n : String) : Bool :=
  n ∈ builtin_nodes || builtin_patterns.any (fun p => p n)

/-- The per-node precedence chain of lines 305-323: manual override, then
preemption, then head of the provider list, then first matching declared
pattern, then the defensive provider-list re-check. -/
def resolveNode (node_to_plugins : List (String × List String))
    (preemption_map : List (String × String))
    (pattern_entries : List ((String → Bool) × String))
    (plugin_overrides : List (String × String)) (n : String) : Option String :=
  let plugin_ids := assocGet node_to_plugins n
  match assocGet plugin_overrides n with
  | some po => some po
  | none =>
      let p := assocGet preemption_map n
      let p := match p with
        | some _ => p
        | none => match plugin_ids with | some (x :: _) => some x | _ => none
      let p := match p with
        | some _ => p
        | none => (pattern_entries.find? (fun pe => pe.1 n)).map (·.2)
      match p with
      | some _ => p
      | none => match plugin_ids with | some (x :: _) => some x | _ => none

/-- `entry["nodes"].add(node_name)` after `plugins.setdefault` (lines
329-337), on the id → node-set dict. -/
def assocAddNode (l : List (String × List String)) (pid n : String) :
    List (String × List String) :=
  match assocGet l pid with
  | some ns => assocSet l pid (insertIfAbsent n ns)
  | none => l ++ [(pid, [n])]

/-- Accumulator of the resolver loop: `plugins` and `unresolved`. -/
structure ResolveSt where
  plugins : List (String × List String)
  unresolved : List String

/-- The resolver loop (lines 302-327), parametrized by the built-in test `B`
and the per-node resolution `R`. -/
def resolveGo (B : String → Bool) (R : String → Option String) :
    List String → ResolveSt → ResolveSt
  | [], st => st
  | n :: rest, st =>
      if B n then resolveGo B R rest st
      else
        match R n with
        | none => resolveGo B R rest { st with unresolved := insertIfAbsent n st.unresolved }
        | some pid => resolveGo B R rest { st with plugins := assocAddNode st.plugins pid n }

/-- One plugin group of the resolver's output (lines 342-345); an empty
`metadata` models the omitted key. -/
structure PluginGroupOut where
  id : String
  nodes : List String
  metadata : List (String × J)

/-- Python `set` deduplication, first occurrence kept. -/
def dedupStrings (l : List String) : List String :=
  l.foldl (fun acc x => insertIfAbsent x acc) []

/-- `resolve_dependencies` (line 289).  `workflow_nodes` is the workflow's
node-name set (as a list); regexes appear as their match functions. -/
def resolve_dependencies (workflow_nodes builtin_nodes : List String)
    (builtin_patterns : List (String → Bool))
    (node_to_plugins : List (String × List String))
    (plugin_metadata : List (String × List (String × J)))
    (preemption_map : List (String × String))
    (pattern_entries : List ((String → Bool) × String))
    (plugin_overrides : List (String × String)) :
    List PluginGroupOut × List String :=
  let nodes := sortStrings (dedupStrings workflow_nodes)
  let st := resolveGo (isBuiltin builtin_nodes builtin_patterns)
    (resolveNode node_to_plugins preemption_map pattern_entries plugin_overrides)
    nodes ⟨[], []⟩
  let sortedPlugins := sortBy (fun a b => strLe a.1 b.1) st.plugins
  (sortedPlugins.map (fun pe =>
      { id := pe.1, nodes := sortStrings pe.2,
        metadata := (assocGet plugin_metadata pe.1).getD [] }),
   sortStrings st.unresolved)

/-! ### The default node-map loading branch of `main` (lines 451-473)

`main` never assigns the name `fallback`; the branch models the variable
environment explicitly (`fallbackVar = none` means the name is unbound, so
that evaluating `fallback.exists()` raises `NameError`). -/

/-- Result of the `--node-map`-absent branch. -/
inductive LoadNodeMapResult where
  | loaded (preferredUsed : Bool) (fallbackMerged : Bool)
  | fatalMissing
  | nameError
deriving DecidableEq, Repr

/-- The `else` branch of lines 458-473, with the binding state of the local
variable `fallback` passed in explicitly (`none` = never assigned, which is
what `main` does) and the filesystem as an existence oracle. -/
def loadNodeMapDefaultBranch (fallbackVar : Option String)
    (preferredExists : Bool) (fallbackExists : String → Bool) : LoadNodeMapResult :=
  if preferredExists then
    match fallbackVar with
    | none => .nameError
    | some fb =>
        if fallbackExists fb then .loaded true true else .loaded true false
  else
    match fallbackVar with
    | none => .nameError
    | some fb => if fallbackExists fb then .loaded false true else .fatalMissing

/-! ## Auxiliary definitions for the claim statements -/

/-- Modelled from the spec (amended for C1): derive a group's repository URL
by inspecting the metadata keys `repo`, `repository`, `github`, `git`,
`url`, `homepage` in priority order, taking the first string value that
normalizes successfully, and only when none does by normalizing the plugin
id itself.  Stated independently of `plan_plugins` for the refinement
theorem. -/
def specRepoUrl (plugin_id : String) (metadata : Option (List (String × J))) : Option String :=
  let fromMeta := match metadata with
    | some m => repoMetaKeys.findSome? (fun k =>
        normalize_git_url (match dictGet m k with | some (J.str s) => some s | _ => none))
    | none => none
  match fromMeta with
  | some u => some u
  | none => normalize_git_url (some plugin_id)

/-- C1 counterexample manifest: the plugin id itself normalizes, and the
metadata `repo` key also normalizes, to a different URL. -/
def c1deps : J := J.obj [("plugins", J.arr [J.obj [
  ("id", J.str "https://id.example/x"),
  ("metadata", J.obj [("repo", J.str "https://meta.example/y")])]])]

/-- C3 scenario: a cloned plugin with one discovered requirements file. -/
def c3plan : PluginPlan :=
  { plugin_id := "plugin", nodes := [], repo_url := some "https://x/p", slug := some "p",
    reason := some "plugin_id", status := "cloned",
    requirements := ["root/p/requirements.txt"] }

/-- C3 scenario: the cloned plugin's requirements file contents. -/
def c3read : String → Option (List String) := fun path =>
  if path = "root/p/requirements.txt" then
    some ["NumPy==1.2", "git+https://example.com/foo.git"]
  else none

/-- C6 counterexample directory: both raw ids reference the same canonical
id `R`. -/
def c6cat : List (String × List (String × J)) :=
  [("u1", [("reference", J.str "R"), ("title", J.str "TA")]),
   ("u2", [("reference", J.str "R"), ("title", J.str "TB")])]

/-- C6 counterexample raw node map: both entries set the metadata key
`title`, to different values. -/
def c6raw : List (String × J) :=
  [("u1", J.arr [J.arr [J.str "N1"], J.obj [("title", J.str "A")]]),
   ("u2", J.arr [J.arr [J.str "N2"], J.obj [("title", J.str "B")]])]

/-- C7 counterexample manifest: an earlier plugin already owns the base slug
`a-2`, then three plugins derive the base slug `a`. -/
def c7deps : J := J.obj [("plugins", J.arr [
  J.obj [("id", J.str "https://x/a-2")],
  J.obj [("id", J.str "https://x/a")],
  J.obj [("id", J.str "https://y/a")],
  J.obj [("id", J.str "https://z/a")]])]

/-- C10 concrete plan: the duplicated discovery of a plugin's extension-less
`requirements` file. -/
def c10plan : PluginPlan :=
  { plugin_id := "p10", nodes := [], repo_url := some "https://x/q", slug := some "q",
    reason := some "plugin_id", status := "cloned",
    requirements := ["root/q/requirements", "root/q/requirements"] }

/-- C10 concrete read collaborator. -/
def c10read : String → Option (List String) := fun path =>
  if path = "root/q/requirements" then some ["torch"] else none

/-- `entry.get("nodes", [])` is iterable (absent, list, string or dict);
anything else raises `TypeError` in the source. -/
def nodesIterOk (kvs : List (String × J)) : Bool :=
  match dictGet kvs "nodes" with
  | none => true
  | some v => (pyListOf v).isSome

/-- The deps documents on which the Python `plan_plugins` runs without
raising (the modelled domain of `mainRun`): a JSON object whose
`unresolved_nodes` value, when truthy, is iterable, and whose plugin
entries' `nodes` values are iterable. -/
def depsWFb (d : J) : Bool :=
  match d with
  | J.obj _ =>
      (!((jGet d "unresolved_nodes").getD (J.arr [])).truthy ||
        (pyListOf ((jGet d "unresolved_nodes").getD (J.arr []))).isSome) &&
      (match jGet d "plugins" with
       | some (J.arr items) =>
           items.all (fun e => match e with | J.obj kvs => nodesIterOk kvs | _ => true)
       | _ => true)
  | _ => false

/-- `load_known_requirements` over `main`'s two baseline files. -/
def mainKnown (env : MainEnv) : List String × List String :=
  load_known_requirements [env.pak3, env.pak7]

/-- The aggregated requirement lines of a `main` run. -/
def mainCollected (env : MainEnv) : List String :=
  collect_requirements (mainProcessed env) env.readFile (mainKnown env).1 (mainKnown env).2

/-- Keys of an association list. -/
def keysOf {α : Type} (l : List (String × α)) : List String := l.map Prod.fst

/-- C4 witness environment: one plugin whose id is a bare label (no
derivable repository URL) and one unresolved node. -/
def c4env : MainEnv :=
  { depsExists := true,
    deps := J.obj [("plugins", J.arr [J.obj [("id", J.str "bare-label")]]),
                   ("unresolved_nodes", J.arr [J.str "U"])],
    cloneEnv := { root := "root", targetExists := fun _ => false,
                  listing := fun _ => [], fetch := fun _ => .ok },
    readFile := fun _ => none,
    pak3 := none, pak7 := none,
    reqOutputExists := false,
    reqOutputPath := "req.txt", summaryPath := "summary.json" }

/-- `n` is recorded in group `pid` of the resolver's accumulator. -/
def inGroups (l : List (String × List String)) (pid n : String) : Prop :=
  ∃ ns, assocGet l pid = some ns ∧ n ∈ ns

/-! ## General lemmas about the embedding -/

theorem mem_insertBy {α : Type} (le : α → α → Bool) (x a : α) (l : List α) :
    a ∈ insertBy le x l ↔ a = x ∨ a ∈ l := by
  induction l with
  | nil => simp [insertBy, eq_comm]
  | cons y ys ih =>
      simp only [insertBy]
      split
      · simp [eq_comm]
      · simp [ih, eq_comm]
        tauto

theorem mem_sortBy {α : Type} (le : α → α → Bool) (a : α) (l : List α) :
    a ∈ sortBy le l ↔ a ∈ l := by
  induction l with
  | nil => simp [sortBy]
  | cons x xs ih => simp [sortBy, mem_insertBy, ih, eq_comm]

theorem mem_sortStrings (a : String) (l : List String) :
    a ∈ sortStrings l ↔ a ∈ l := mem_sortBy _ a l

theorem ofDigitsRev_decDigitsRev (fuel n : Nat) (h : n ≤ fuel) :
    ofDigitsRev (decDigitsRev fuel n) = n := by
  induction fuel generalizing n with
  | zero => interval_cases n; simp [decDigitsRev, ofDigitsRev]
  | succ f ih =>
      by_cases h0 : n = 0
      · simp [decDigitsRev, h0, ofDigitsRev]
      · have hdiv : n / 10 ≤ f := by
          have : n / 10 < n := Nat.div_lt_self (Nat.pos_of_ne_zero h0) (by omega)
          omega
        simp only [decDigitsRev, h0, if_false, ofDigitsRev, ih _ hdiv]
        omega

theorem decDigitsRev_lt (fuel n : Nat) : ∀ d ∈ decDigitsRev fuel n, d < 10 := by
  induction fuel generalizing n with
  | zero => simp [decDigitsRev]
  | succ f ih =>
      intro d hd
      by_cases h0 : n = 0
      · simp [decDigitsRev, h0] at hd
      · simp only [decDigitsRev, h0, if_false, List.mem_cons] at hd
        rcases hd with h | h
        · subst h; exact Nat.mod_lt _ (by omega)
        · exact ih _ _ h

theorem decDigit_inj {a b : Nat} (ha : a < 10) (hb : b < 10) (h : decDigit a = decDigit b) :
    a = b := by
  revert h
  interval_cases a <;> interval_cases b <;> decide

theorem map_decDigit_inj :
    ∀ (l₁ l₂ : List Nat), (∀ d ∈ l₁, d < 10) → (∀ d ∈ l₂, d < 10) →
      l₁.map decDigit = l₂.map decDigit → l₁ = l₂ := by
  intro l₁
  induction l₁ with
  | nil => intro l₂ _ _ h; cases l₂ <;> simp_all
  | cons x xs ih =>
      intro l₂ h₁ h₂ h
      cases l₂ with
      | nil => simp at h
      | cons y ys =>
          simp only [List.map_cons, List.cons.injEq] at h
          have hx : x = y :=
            decDigit_inj (h₁ x (by simp)) (h₂ y (by simp)) h.1
          have hxs : xs = ys :=
            ih ys (fun d hd => h₁ d (by simp [hd])) (fun d hd => h₂ d (by simp [hd])) h.2
          rw [hx, hxs]

theorem natRepr_data (n : Nat) : (natRepr n).data = (reprDigits n).map decDigit := by
  by_cases h : n = 0
  · subst h; rfl
  · simp [natRepr, reprDigits, h, List.asString]

theorem reprDigits_lt (n : Nat) : ∀ d ∈ reprDigits n, d < 10 := by
  intro d hd
  by_cases h : n = 0
  · simp [reprDigits, h] at hd; omega
  · simp only [reprDigits, h, if_false, List.mem_reverse] at hd
    exact decDigitsRev_lt _ _ _ hd

theorem ofDigitsRev_reprDigits (n : Nat) : ofDigitsRev (reprDigits n).reverse = n := by
  by_cases h : n = 0
  · simp [reprDigits, h, ofDigitsRev]
  · simp only [reprDigits, h, if_false, List.reverse_reverse]
    exact ofDigitsRev_decDigitsRev n n (le_refl _)

theorem natRepr_inj {a b : Nat} (h : natRepr a = natRepr b) : a = b := by
  have hd : (reprDigits a).map decDigit = (reprDigits b).map decDigit := by
    rw [← natRepr_data, ← natRepr_data, h]
  have hdig := map_decDigit_inj _ _ (reprDigits_lt a) (reprDigits_lt b) hd
  have := ofDigitsRev_reprDigits a
  rw [← this, hdig, ofDigitsRev_reprDigits]

theorem string_append_cancel_left {a b c : String} (h : a ++ b = a ++ c) : b = c := by
  have hd := congrArg String.data h
  rw [String.data_append, String.data_append] at hd
  exact String.ext (List.append_cancel_left hd)

theorem findFree_not_mem (slug : String) (existing : List String) :
    ∀ (fuel idx : Nat),
      (∃ j, idx ≤ j ∧ j < idx + fuel ∧ (slug ++ "-" ++ natRepr j) ∉ existing) →
      findFree slug existing idx fuel ∉ existing := by
  intro fuel
  induction fuel with
  | zero => intro idx ⟨j, h1, h2, _⟩; omega
  | succ f ih =>
      intro idx ⟨j, h1, h2, h3⟩
      simp only [findFree]
      by_cases hc : (slug ++ "-" ++ natRepr idx) ∈ existing
      · simp only [hc, if_true]
        apply ih
        refine ⟨j, ?_, by omega, h3⟩
        rcases Nat.eq_or_lt_of_le h1 with rfl | h
        · exact absurd hc h3
        · omega
      · simp [hc]

theorem free_candidate_exists (slug : String) (existing : List String) :
    ∃ j, 2 ≤ j ∧ j < 2 + (existing.length + 1) ∧ (slug ++ "-" ++ natRepr j) ∉ existing := by
  by_contra hall
  push_neg at hall
  have hmem : ∀ i < existing.length + 1, (slug ++ "-" ++ natRepr (2 + i)) ∈ existing := by
    intro i hi
    exact hall (2 + i) (by omega) (by omega)
  classical
  set cands : List String :=
    (List.range (existing.length + 1)).map (fun i => slug ++ "-" ++ natRepr (2 + i)) with hcands
  have hnodup : cands.Nodup := by
    refine List.Nodup.map_on ?_ (List.nodup_range _)
    intro x _ y _ hxy
    have : natRepr (2 + x) = natRepr (2 + y) := by
      have h1 : slug ++ ("-" ++ natRepr (2 + x)) = slug ++ ("-" ++ natRepr (2 + y)) := by
        simpa [String.append_assoc] using hxy
      have h2 := string_append_cancel_left h1
      exact string_append_cancel_left h2
    have := natRepr_inj this
    omega
  have hsub : ∀ x ∈ cands, x ∈ existing := by
    intro x hx
    rw [hcands, List.mem_map] at hx
    obtain ⟨i, hi, rfl⟩ := hx
    exact hmem i (List.mem_range.mp hi)
  have hc1 : cands.toFinset.card = existing.length + 1 := by
    rw [List.toFinset_card_of_nodup hnodup, hcands, List.length_map, List.length_range]
  have hc2 : cands.toFinset ⊆ existing.toFinset := by
    intro x hx
    rw [List.mem_toFinset] at hx ⊢
    exact hsub x hx
  have := Finset.card_le_card hc2
  have := existing.toFinset_card_le
  omega

theorem ensure_unique_slug_fresh (slug : String) (existing : List String) :
    (ensure_unique_slug slug existing).1 ∉ existing ∧
      (ensure_unique_slug slug existing).2 = (ensure_unique_slug slug existing).1 :: existing := by
  by_cases h : slug ∈ existing
  · have heq : ensure_unique_slug slug existing =
        (findFree slug existing 2 (existing.length + 1),
         findFree slug existing 2 (existing.length + 1) :: existing) := by
      simp [ensure_unique_slug, h]
    rw [heq]
    exact ⟨findFree_not_mem slug existing _ 2 (free_candidate_exists slug existing), rfl⟩
  · have heq : ensure_unique_slug slug existing = (slug, slug :: existing) := by
      simp [ensure_unique_slug, h]
    rw [heq]
    exact ⟨h, rfl⟩

theorem mem_insertIfAbsent (x y : String) (l : List String) :
    y ∈ insertIfAbsent x l ↔ y = x ∨ y ∈ l := by
  unfold insertIfAbsent
  split
  · constructor
    · exact fun h => Or.inr h
    · rintro (rfl | h) <;> assumption
  · simp [List.mem_append, or_comm]

theorem assocGet_assocSet {α : Type} (l : List (String × α)) (k k' : String) (v : α) :
    assocGet (assocSet l k v) k' = if k' = k then some v else assocGet l k' := by
  induction l with
  | nil =>
      by_cases h : k = k'
      · subst h; simp [assocSet, assocGet]
      · have h' : ¬ k' = k := fun hh => h hh.symm
        simp [assocSet, assocGet, h, h']
  | cons hd tl ih =>
      obtain ⟨k₀, v₀⟩ := hd
      by_cases h₀ : k₀ = k
      · subst h₀
        simp only [assocSet, if_pos rfl, assocGet]
        by_cases h : k₀ = k'
        · subst h; simp
        · have h' : ¬ k' = k₀ := fun hh => h hh.symm
          simp [h, h']
      · simp only [assocSet, if_neg h₀, assocGet, ih]
        by_cases h : k₀ = k'
        · subst h
          simp [h₀]
        · simp [h]

theorem assocGet_append {α : Type} (l₁ l₂ : List (String × α)) (k : String) :
    assocGet (l₁ ++ l₂) k =
      match assocGet l₁ k with | some v => some v | none => assocGet l₂ k := by
  induction l₁ with
  | nil => simp [assocGet]
  | cons hd tl ih =>
      obtain ⟨k₀, v₀⟩ := hd
      by_cases h : k₀ = k <;> simp [assocGet, h, ih]

theorem assocGet_eq_none_iff {α : Type} (l : List (String × α)) (k : String) :
    assocGet l k = none ↔ k ∉ keysOf l := by
  induction l with
  | nil => simp [assocGet, keysOf]
  | cons hd tl ih =>
      obtain ⟨k₀, v₀⟩ := hd
      by_cases h : k₀ = k
      · subst h; simp [assocGet, keysOf]
      · have h' : ¬ k = k₀ := fun hh => h hh.symm
        simp [assocGet, keysOf, h, h', ih]

theorem mem_of_assocGet {α : Type} {l : List (String × α)} {k : String} {v : α}
    (h : assocGet l k = some v) : (k, v) ∈ l := by
  induction l with
  | nil => simp [assocGet] at h
  | cons hd tl ih =>
      obtain ⟨k₀, v₀⟩ := hd
      by_cases h₀ : k₀ = k
      · subst h₀
        rw [assocGet, if_pos rfl] at h
        obtain rfl : v₀ = v := by injection h
        exact List.mem_cons_self _ _
      · rw [assocGet, if_neg h₀] at h
        exact List.mem_cons_of_mem _ (ih h)

theorem assocGet_of_mem_nodup {α : Type} {l : List (String × α)}
    (hnd : (keysOf l).Nodup) {k : String} {v : α} (h : (k, v) ∈ l) :
    assocGet l k = some v := by
  induction l with
  | nil => simp at h
  | cons hd tl ih =>
      obtain ⟨k₀, v₀⟩ := hd
      simp only [keysOf, List.map_cons, List.nodup_cons] at hnd
      rcases List.mem_cons.mp h with heq | hmem
      · injection heq with h1 h2
        subst h1; subst h2
        rw [assocGet, if_pos rfl]
      · have hk : ¬ k₀ = k := by
          intro hk; subst hk
          exact hnd.1 (List.mem_map.mpr ⟨(k₀, v), hmem, rfl⟩)
        rw [assocGet, if_neg hk]
        exact ih hnd.2 hmem

theorem keysOf_assocSet {α : Type} (l : List (String × α)) (k : String) (v : α) :
    keysOf (assocSet l k v) = if k ∈ keysOf l then keysOf l else keysOf l ++ [k] := by
  induction l with
  | nil => simp [assocSet, keysOf]
  | cons hd tl ih =>
      obtain ⟨k₀, v₀⟩ := hd
      simp only [keysOf] at ih ⊢
      by_cases h : k₀ = k
      · subst h; simp [assocSet]
      · have h' : ¬ k = k₀ := fun hh => h hh.symm
        simp only [assocSet, if_neg h, List.map_cons, ih, List.mem_cons, h', false_or]
        split <;> simp

theorem keysOf_assocAddNode (l : List (String × List String)) (pid n : String) :
    keysOf (assocAddNode l pid n) =
      if pid ∈ keysOf l then keysOf l else keysOf l ++ [pid] := by
  unfold assocAddNode
  cases hg : assocGet l pid with
  | some ns => rw [keysOf_assocSet]
  | none =>
      have hmem : pid ∉ keysOf l := (assocGet_eq_none_iff l pid).mp hg
      rw [if_neg hmem]
      simp [keysOf]

theorem keysOf_nodup_assocAddNode {l : List (String × List String)} {pid n : String}
    (h : (keysOf l).Nodup) : (keysOf (assocAddNode l pid n)).Nodup := by
  rw [keysOf_assocAddNode]
  split
  · exact h
  · next hmem => simp [List.nodup_append, h, hmem]

theorem assocGet_assocAddNode (l : List (String × List String)) (pid n pid' : String) :
    assocGet (assocAddNode l pid n) pid' =
      if pid' = pid then some (insertIfAbsent n ((assocGet l pid).getD [])) else assocGet l pid' := by
  unfold assocAddNode
  cases hg : assocGet l pid with
  | some ns =>
      rw [assocGet_assocSet]
      by_cases hp : pid' = pid
      · simp [hp, hg]
      · simp [hp]
  | none =>
      rw [assocGet_append]
      by_cases hp : pid' = pid
      · subst hp
        rw [hg]
        simp [assocGet, insertIfAbsent]
      · have h' : ¬ pid = pid' := fun hh => hp hh.symm
        rw [if_neg hp]
        cases hgl : assocGet l pid' <;> simp [assocGet, h']

theorem inGroups_assocAddNode (l : List (String × List String)) (pid n pid' n' : String) :
    inGroups (assocAddNode l pid n) pid' n' ↔
      inGroups l pid' n' ∨ (pid' = pid ∧ n' = n) := by
  unfold inGroups
  rw [show (∃ ns, assocGet (assocAddNode l pid n) pid' = some ns ∧ n' ∈ ns) =
      (∃ ns, (if pid' = pid then some (insertIfAbsent n ((assocGet l pid).getD []))
        else assocGet l pid') = some ns ∧ n' ∈ ns) by rw [assocGet_assocAddNode]]
  by_cases hp : pid' = pid
  · subst hp
    simp only [if_pos rfl]
    constructor
    · rintro ⟨ns', hns', hmem⟩
      have hns : ns' = insertIfAbsent n ((assocGet l pid').getD []) := by
        injection hns' with h; exact h.symm
      subst hns
      rcases (mem_insertIfAbsent _ _ _).mp hmem with rfl | hmem'
      · simp
      · cases hg : assocGet l pid' with
        | some ns =>
            rw [hg] at hmem'
            exact Or.inl ⟨ns, rfl, by simpa using hmem'⟩
        | none => rw [hg] at hmem'; simp at hmem'
    · rintro (⟨ns, hget, hmem⟩ | ⟨-, rfl⟩)
      · exact ⟨_, rfl, (mem_insertIfAbsent _ _ _).mpr (Or.inr (by rw [hget]; simpa using hmem))⟩
      · exact ⟨_, rfl, (mem_insertIfAbsent _ _ _).mpr (Or.inl rfl)⟩
  · simp only [if_neg hp]
    constructor
    · rintro ⟨ns, h1, h2⟩; exact Or.inl ⟨ns, h1, h2⟩
    · rintro (⟨ns, h1, h2⟩ | ⟨heq, -⟩)
      · exact ⟨ns, h1, h2⟩
      · exact absurd heq hp

theorem resolveGo_spec (B : String → Bool) (R : String → Option String) :
    ∀ (ns : List String) (st : ResolveSt) (pid n : String),
      (inGroups (resolveGo B R ns st).plugins pid n ↔
        inGroups st.plugins pid n ∨ (n ∈ ns ∧ B n = false ∧ R n = some pid)) ∧
      (n ∈ (resolveGo B R ns st).unresolved ↔
        n ∈ st.unresolved ∨ (n ∈ ns ∧ B n = false ∧ R n = none)) := by
  intro ns
  induction ns with
  | nil => intro st pid n; simp [resolveGo]
  | cons n₀ rest ih =>
      intro st pid n
      by_cases hB : B n₀
      · have hgo : resolveGo B R (n₀ :: rest) st = resolveGo B R rest st := by
          simp [resolveGo, hB]
        rw [hgo]
        obtain ⟨ih1, ih2⟩ := ih st pid n
        constructor
        · rw [ih1]
          constructor
          · rintro (h | ⟨hm, hb, hr⟩)
            · exact Or.inl h
            · exact Or.inr ⟨List.mem_cons_of_mem _ hm, hb, hr⟩
          · rintro (h | ⟨hm, hb, hr⟩)
            · exact Or.inl h
            · rcases List.mem_cons.mp hm with rfl | hm'
              · rw [hB] at hb; cases hb
              · exact Or.inr ⟨hm', hb, hr⟩
        · rw [ih2]
          constructor
          · rintro (h | ⟨hm, hb, hr⟩)
            · exact Or.inl h
            · exact Or.inr ⟨List.mem_cons_of_mem _ hm, hb, hr⟩
          · rintro (h | ⟨hm, hb, hr⟩)
            · exact Or.inl h
            · rcases List.mem_cons.mp hm with rfl | hm'
              · rw [hB] at hb; cases hb
              · exact Or.inr ⟨hm', hb, hr⟩
      · cases hR : R n₀ with
        | none =>
            have hgo : resolveGo B R (n₀ :: rest) st =
                resolveGo B R rest { st with unresolved := insertIfAbsent n₀ st.unresolved } := by
              simp [resolveGo, hB, hR]
            rw [hgo]
            obtain ⟨ih1, ih2⟩ := ih { st with unresolved := insertIfAbsent n₀ st.unresolved } pid n
            constructor
            · rw [ih1]
              constructor
              · rintro (h | ⟨hm, hb, hr⟩)
                · exact Or.inl h
                · exact Or.inr ⟨List.mem_cons_of_mem _ hm, hb, hr⟩
              · rintro (h | ⟨hm, hb, hr⟩)
                · exact Or.inl h
                · rcases List.mem_cons.mp hm with rfl | hm'
                  · rw [hR] at hr; cases hr
                  · exact Or.inr ⟨hm', hb, hr⟩
            · rw [ih2]
              simp only [mem_insertIfAbsent]
              constructor
              · rintro ((rfl | h) | ⟨hm, hb, hr⟩)
                · exact Or.inr ⟨List.mem_cons_self _ _, by simpa using hB, hR⟩
                · exact Or.inl h
                · exact Or.inr ⟨List.mem_cons_of_mem _ hm, hb, hr⟩
              · rintro (h | ⟨hm, hb, hr⟩)
                · exact Or.inl (Or.inr h)
                · rcases List.mem_cons.mp hm with rfl | hm'
                  · exact Or.inl (Or.inl rfl)
                  · exact Or.inr ⟨hm', hb, hr⟩
        | some pid₀ =>
            have hgo : resolveGo B R (n₀ :: rest) st =
                resolveGo B R rest { st with plugins := assocAddNode st.plugins pid₀ n₀ } := by
              simp [resolveGo, hB, hR]
            rw [hgo]
            obtain ⟨ih1, ih2⟩ := ih { st with plugins := assocAddNode st.plugins pid₀ n₀ } pid n
            constructor
            · rw [ih1]
              simp only [inGroups_assocAddNode]
              constructor
              · rintro ((h | ⟨rfl, rfl⟩) | ⟨hm, hb, hr⟩)
                · exact Or.inl h
                · exact Or.inr ⟨List.mem_cons_self _ _, by simpa using hB, hR⟩
                · exact Or.inr ⟨List.mem_cons_of_mem _ hm, hb, hr⟩
              · rintro (h | ⟨hm, hb, hr⟩)
                · exact Or.inl (Or.inl h)
                · rcases List.mem_cons.mp hm with rfl | hm'
                  · rw [hR] at hr
                    obtain rfl : pid₀ = pid := by injection hr
                    exact Or.inl (Or.inr ⟨rfl, rfl⟩)
                  · exact Or.inr ⟨hm', hb, hr⟩
            · rw [ih2]
              constructor
              · rintro (h | ⟨hm, hb, hr⟩)
                · exact Or.inl h
                · exact Or.inr ⟨List.mem_cons_of_mem _ hm, hb, hr⟩
              · rintro (h | ⟨hm, hb, hr⟩)
                · exact Or.inl h
                · rcases List.mem_cons.mp hm with rfl | hm'
                  · rw [hR] at hr; cases hr
                  · exact Or.inr ⟨hm', hb, hr⟩

theorem resolveGo_keys_nodup (B : String → Bool) (R : String → Option String) :
    ∀ (ns : List String) (st : ResolveSt),
      (keysOf st.plugins).Nodup → (keysOf (resolveGo B R ns st).plugins).Nodup := by
  intro ns
  induction ns with
  | nil => intro st h; simpa [resolveGo] using h
  | cons n₀ rest ih =>
      intro st h
      by_cases hB : B n₀
      · rw [show resolveGo B R (n₀ :: rest) st = resolveGo B R rest st by simp [resolveGo, hB]]
        exact ih st h
      · cases hR : R n₀ with
        | none =>
            rw [show resolveGo B R (n₀ :: rest) st =
              resolveGo B R rest { st with unresolved := insertIfAbsent n₀ st.unresolved } by
                simp [resolveGo, hB, hR]]
            exact ih _ h
        | some pid₀ =>
            rw [show resolveGo B R (n₀ :: rest) st =
              resolveGo B R rest { st with plugins := assocAddNode st.plugins pid₀ n₀ } by
                simp [resolveGo, hB, hR]]
            exact ih _ (keysOf_nodup_assocAddNode h)

theorem mem_dedup_aux (l : List String) :
    ∀ (acc : List String) (y : String),
      y ∈ l.foldl (fun acc x => insertIfAbsent x acc) acc ↔ y ∈ acc ∨ y ∈ l := by
  induction l with
  | nil => intro acc y; simp
  | cons x xs ih =>
      intro acc y
      simp only [List.foldl_cons]
      rw [ih (insertIfAbsent x acc) y, mem_insertIfAbsent]
      simp only [List.mem_cons]
      tauto

theorem mem_dedupStrings (y : String) (l : List String) :
    y ∈ dedupStrings l ↔ y ∈ l := by
  simpa [dedupStrings] using mem_dedup_aux l [] y

theorem inGroups_iff_exists {l : List (String × List String)}
    (hnd : (keysOf l).Nodup) (pid n : String) :
    inGroups l pid n ↔ ∃ ns, (pid, ns) ∈ l ∧ n ∈ ns := by
  constructor
  · rintro ⟨ns, hget, hmem⟩
    exact ⟨ns, mem_of_assocGet hget, hmem⟩
  · rintro ⟨ns, hmem, hn⟩
    exact ⟨ns, assocGet_of_mem_nodup hnd hmem, hn⟩

theorem resolve_dependencies_group_mem
    (workflow builtin_nodes : List String) (builtin_patterns : List (String → Bool))
    (ntp : List (String × List String)) (pm : List (String × List (String × J)))
    (pre : List (String × String)) (pats : List ((String → Bool) × String))
    (ov : List (String × String)) (pid n : String) :
    (∃ g ∈ (resolve_dependencies workflow builtin_nodes builtin_patterns ntp pm pre pats ov).1,
        g.id = pid ∧ n ∈ g.nodes) ↔
      n ∈ workflow ∧ isBuiltin builtin_nodes builtin_patterns n = false ∧
        resolveNode ntp pre pats ov n = some pid := by
  set B := isBuiltin builtin_nodes builtin_patterns with hBdef
  set R := resolveNode ntp pre pats ov with hRdef
  set nodes := sortStrings (dedupStrings workflow) with hnodes
  set st := resolveGo B R nodes ⟨[], []⟩ with hst
  have hnd : (keysOf st.plugins).Nodup := by
    rw [hst]
    exact resolveGo_keys_nodup B R nodes ⟨[], []⟩ (by simp [keysOf])
  have hout : (resolve_dependencies workflow builtin_nodes builtin_patterns ntp pm pre pats ov).1 =
      (sortBy (fun a b => strLe a.1 b.1) st.plugins).map (fun pe =>
        { id := pe.1, nodes := sortStrings pe.2,
          metadata := (assocGet pm pe.1).getD [] : PluginGroupOut }) := rfl
  rw [hout]
  constructor
  · rintro ⟨g, hg, hid, hn⟩
    obtain ⟨pe, hpe, rfl⟩ := List.mem_map.mp hg
    rw [mem_sortBy] at hpe
    simp only at hid hn
    rw [mem_sortStrings] at hn
    have hig : inGroups st.plugins pid n := by
      rw [inGroups_iff_exists hnd]
      exact ⟨pe.2, by rwa [← hid, Prod.mk.eta], hn⟩
    have := ((resolveGo_spec B R nodes ⟨[], []⟩ pid n).1).mp (hst ▸ hig)
    rcases this with hfalse | ⟨hm, hb, hr⟩
    · obtain ⟨ns, hget, -⟩ := hfalse
      simp [assocGet] at hget
    · rw [hnodes, mem_sortStrings, mem_dedupStrings] at hm
      exact ⟨hm, hb, hr⟩
  · rintro ⟨hm, hb, hr⟩
    have hm' : n ∈ nodes := by
      rw [hnodes, mem_sortStrings, mem_dedupStrings]; exact hm
    have hig : inGroups st.plugins pid n := by
      rw [hst]
      exact ((resolveGo_spec B R nodes ⟨[], []⟩ pid n).1).mpr (Or.inr ⟨hm', hb, hr⟩)
    rw [inGroups_iff_exists hnd] at hig
    obtain ⟨ns, hmem, hn⟩ := hig
    refine ⟨{ id := pid, nodes := sortStrings ns, metadata := (assocGet pm pid).getD [] }, ?_, rfl, ?_⟩
    · exact List.mem_map.mpr ⟨(pid, ns), (mem_sortBy _ _ _).mpr hmem, rfl⟩
    · rwa [mem_sortStrings]

theorem resolve_dependencies_unresolved_mem
    (workflow builtin_nodes : List String) (builtin_patterns : List (String → Bool))
    (ntp : List (String × List String)) (pm : List (String × List (String × J)))
    (pre : List (String × String)) (pats : List ((String → Bool) × String))
    (ov : List (String × String)) (n : String) :
    n ∈ (resolve_dependencies workflow builtin_nodes builtin_patterns ntp pm pre pats ov).2 ↔
      n ∈ workflow ∧ isBuiltin builtin_nodes builtin_patterns n = false ∧
        resolveNode ntp pre pats ov n = none := by
  set B := isBuiltin builtin_nodes builtin_patterns with hBdef
  set R := resolveNode ntp pre pats ov with hRdef
  set nodes := sortStrings (dedupStrings workflow) with hnodes
  set st := resolveGo B R nodes ⟨[], []⟩ with hst
  have hout : (resolve_dependencies workflow builtin_nodes builtin_patterns ntp pm pre pats ov).2 =
      sortStrings st.unresolved := rfl
  rw [hout, mem_sortStrings]
  have hspec := (resolveGo_spec B R nodes ⟨[], []⟩ n n).2
  rw [hst, hspec]
  simp only [List.not_mem_nil, false_or]
  rw [hnodes, mem_sortStrings, mem_dedupStrings]

theorem str_append_assoc (a b c : String) : a ++ b ++ c = a ++ (b ++ c) :=
  String.ext (by simp [String.data_append, List.append_assoc])

theorem str_append_length (a b : String) :
    (a ++ b).data.length = a.data.length + b.data.length := by
  simp [String.data_append]

theorem firstMetaRepo_map_fst (ks : List String) (m : List (String × J)) :
    (firstMetaRepo ks m).map (·.1) =
      ks.findSome? (fun k =>
        normalize_git_url (match dictGet m k with | some (J.str s) => some s | _ => none)) := by
  induction ks with
  | nil => rfl
  | cons k ks ih =>
      simp only [firstMetaRepo, List.findSome?]
      cases hn : normalize_git_url
          (match dictGet m k with | some (J.str s) => some s | _ => none) with
      | some u => simp
      | none => simpa using ih

theorem mkPlan_repo_url (kvs : List (String × J)) (used : List String) :
    (mkPlan kvs used).1.repo_url =
      specRepoUrl (entryId kvs)
        (match dictGet kvs "metadata" with | some (J.obj m) => some m | _ => none) := by
  have hspec : specRepoUrl (entryId kvs)
      (match dictGet kvs "metadata" with | some (J.obj m) => some m | _ => none) =
      match planRepo kvs with | some r => some r.1 | none => none := by
    unfold specRepoUrl planRepo
    cases hmd : dictGet kvs "metadata" with
    | none =>
        cases hn : normalize_git_url (some (entryId kvs)) <;> simp [hn]
    | some v =>
        cases v with
        | obj m =>
            simp only
            rw [← firstMetaRepo_map_fst]
            cases hf : firstMetaRepo repoMetaKeys m with
            | some r => simp
            | none => cases hn : normalize_git_url (some (entryId kvs)) <;> simp [hn]
        | null => cases hn : normalize_git_url (some (entryId kvs)) <;> simp [hn]
        | bool b => cases hn : normalize_git_url (some (entryId kvs)) <;> simp [hn]
        | num x => cases hn : normalize_git_url (some (entryId kvs)) <;> simp [hn]
        | str s => cases hn : normalize_git_url (some (entryId kvs)) <;> simp [hn]
        | arr xs => cases hn : normalize_git_url (some (entryId kvs)) <;> simp [hn]
  rw [hspec]
  unfold mkPlan
  cases hpr : planRepo kvs with
  | none => simp
  | some r =>
      obtain ⟨url, reason⟩ := r
      rcases hds : derive_slug url used with ⟨slug, used'⟩
      simp [hds]

theorem catalogStep_plugin_metadata (cat : List (String × List (String × J)))
    (ok : String → Bool) (st : CatalogSt) (raw : String × J) :
    (catalogStep cat ok st raw).plugin_metadata =
      match assocGet st.plugin_metadata (canonicalOf cat raw.1) with
      | some existing =>
          if existing.isEmpty then
            assocSet st.plugin_metadata (canonicalOf cat raw.1)
              (combineMeta cat raw.1 (parseVal raw.2).2)
          else
            assocSet st.plugin_metadata (canonicalOf cat raw.1)
              (dictUpdate existing (filterNonNull (combineMeta cat raw.1 (parseVal raw.2).2)))
      | none => assocSet st.plugin_metadata (canonicalOf cat raw.1)
          (combineMeta cat raw.1 (parseVal raw.2).2) := by
  rcases hpv : parseVal raw.2 with ⟨nodes, md⟩
  simp [catalogStep, hpv]

theorem catalogStep_node_to_plugins (cat : List (String × List (String × J)))
    (ok : String → Bool) (st : CatalogSt) (raw : String × J) :
    (catalogStep cat ok st raw).node_to_plugins =
      ntpAdd (canonicalOf cat raw.1) st.node_to_plugins (parseVal raw.2).1 := by
  rcases hpv : parseVal raw.2 with ⟨nodes, md⟩
  simp [catalogStep, hpv]

theorem lookupList_assocAppend (l : List (String × List String)) (k' v k : String) :
    lookupList (assocAppend l k' v) k =
      if k = k' then lookupList l k ++ [v] else lookupList l k := by
  unfold assocAppend lookupList
  cases hg : assocGet l k' with
  | some vs =>
      rw [assocGet_assocSet]
      by_cases hk : k = k'
      · subst hk; simp [hg]
      · simp [hk]
  | none =>
      rw [assocGet_append]
      by_cases hk : k = k'
      · subst hk; rw [hg]; simp [assocGet]
      · have h' : ¬ k' = k := fun hh => hk hh.symm
        cases hgl : assocGet l k <;> simp [assocGet, h', hk]

theorem lookupList_ntpAdd_mono (canon : String) :
    ∀ (ns : List String) (ntp : List (String × List String)) (k c : String),
      c ∈ lookupList ntp k → c ∈ lookupList (ntpAdd canon ntp ns) k := by
  intro ns
  induction ns with
  | nil => intro ntp k c h; exact h
  | cons n₀ rest ih =>
      intro ntp k c h
      simp only [ntpAdd]
      split
      · exact ih ntp k c h
      · apply ih
        rw [lookupList_assocAppend]
        split
        · exact List.mem_append.mpr (Or.inl h)
        · exact h

theorem lookupList_ntpAdd_mem (canon : String) :
    ∀ (ns : List String) (ntp : List (String × List String)) (n : String),
      n ∈ ns → ¬(pyStrip n).data.isEmpty = true →
      canon ∈ lookupList (ntpAdd canon ntp ns) (pyStrip n) := by
  intro ns
  induction ns with
  | nil => intro ntp n h; simp at h
  | cons n₀ rest ih =>
      intro ntp n hmem hne
      simp only [ntpAdd]
      rcases List.mem_cons.mp hmem with rfl | hmem'
      · split
        · next he => exact absurd he hne
        · apply lookupList_ntpAdd_mono
          rw [lookupList_assocAppend, if_pos rfl]
          exact List.mem_append.mpr (Or.inr (by simp))
      · split
        · exact ih ntp n hmem' hne
        · exact ih _ n hmem' hne

theorem mkPlan_slug_cases (kvs : List (String × J)) (used : List String) :
    ((mkPlan kvs used).1.repo_url = none ∧ (mkPlan kvs used).1.slug = none ∧
      (mkPlan kvs used).2 = used) ∨
    (∃ url s, (mkPlan kvs used).1.repo_url = some url ∧ (mkPlan kvs used).1.slug = some s ∧
      s ∉ used ∧ (mkPlan kvs used).2 = s :: used) := by
  unfold mkPlan
  cases hpr : planRepo kvs with
  | none => left; simp
  | some r =>
      obtain ⟨url, reason⟩ := r
      right
      rcases hds : derive_slug url used with ⟨slug, used'⟩
      have hd : derive_slug url used = ensure_unique_slug (baseSlug url) used := rfl
      have hfresh := ensure_unique_slug_fresh (baseSlug url) used
      rw [← hd, hds] at hfresh
      exact ⟨url, slug, by simp [hds], by simp [hds], hfresh.1, by simp [hds, hfresh.2]⟩

theorem planList_slug_inv :
    ∀ (entries : List J) (used : List String),
      (∀ s ∈ (planList entries used).filterMap (·.slug), s ∉ used) ∧
      ((planList entries used).filterMap (·.slug)).Nodup := by
  intro entries
  induction entries with
  | nil => intro used; simp [planList]
  | cons e rest ih =>
      intro used
      cases e with
      | obj kvs =>
          rcases hmk : mkPlan kvs used with ⟨p, used'⟩
          have hcases := mkPlan_slug_cases kvs used
          rw [hmk] at hcases
          simp only [planList, hmk]
          rcases hcases with ⟨-, hsl, hus⟩ | ⟨url, s, -, hsl, hs, hus⟩
          · simp only at hsl hus
            rw [hus]
            simp only [List.filterMap_cons, hsl]
            exact ih used
          · simp only at hsl hus
            rw [hus]
            simp only [List.filterMap_cons, hsl]
            obtain ⟨ih1, ih2⟩ := ih (s :: used)
            refine ⟨?_, List.nodup_cons.mpr ⟨?_, ih2⟩⟩
            · intro x hx
              rcases List.mem_cons.mp hx with rfl | hx'
              · exact hs
              · intro hxu
                exact ih1 x hx' (List.mem_cons_of_mem _ hxu)
            · intro hsr
              exact ih1 s hsr (List.mem_cons_self _ _)
      | null => simpa [planList] using ih used
      | bool b => simpa [planList] using ih used
      | num x => simpa [planList] using ih used
      | str s => simpa [planList] using ih used
      | arr xs => simpa [planList] using ih used

theorem planList_url_iff_slug :
    ∀ (entries : List J) (used : List String) (p : PluginPlan),
      p ∈ planList entries used → p.repo_url.isSome = p.slug.isSome := by
  intro entries
  induction entries with
  | nil => intro used p h; simp [planList] at h
  | cons e rest ih =>
      intro used p h
      cases e with
      | obj kvs =>
          rcases hmk : mkPlan kvs used with ⟨q, used'⟩
          rw [planList, hmk] at h
          rcases List.mem_cons.mp h with rfl | h'
          · have hcases := mkPlan_slug_cases kvs used
            rw [hmk] at hcases
            rcases hcases with ⟨h1, h2, -⟩ | ⟨url, s, h1, h2, -, -⟩ <;>
              simp only at h1 h2 <;> simp [h1, h2]
          · exact ih used' p h'
      | null => exact ih used p (by simpa [planList] using h)
      | bool b => exact ih used p (by simpa [planList] using h)
      | num x => exact ih used p (by simpa [planList] using h)
      | str s => exact ih used p (by simpa [planList] using h)
      | arr xs => exact ih used p (by simpa [planList] using h)

theorem findFree_step (slug : String) (existing : List String) (idx fuel : Nat) :
    findFree slug existing idx (fuel + 1) =
      if (slug ++ "-" ++ natRepr idx) ∈ existing then findFree slug existing (idx + 1) fuel
      else slug ++ "-" ++ natRepr idx := rfl

theorem cand_two (s : String) : s ++ "-" ++ natRepr 2 = s ++ "-2" := by
  rw [str_append_assoc]; rfl

theorem cand_three (s : String) : s ++ "-" ++ natRepr 3 = s ++ "-3" := by
  rw [str_append_assoc]; rfl

theorem suffix_ne_base (s t : String) (ht : t.data.length ≠ 0) : s ++ t ≠ s := by
  intro h
  have := congrArg (fun x => x.data.length) h
  simp only [str_append_length] at this
  omega

theorem perm_insertBy {α : Type} (le : α → α → Bool) (x : α) (l : List α) :
    (insertBy le x l).Perm (x :: l) := by
  induction l with
  | nil => simp [insertBy]
  | cons y ys ih =>
      simp only [insertBy]
      split
      · exact List.Perm.refl _
      · exact (ih.cons y).trans (List.Perm.swap x y ys)

theorem perm_sortBy {α : Type} (le : α → α → Bool) (l : List α) :
    (sortBy le l).Perm l := by
  induction l with
  | nil => simp [sortBy]
  | cons x xs ih => exact (perm_insertBy le x (sortBy le xs)).trans (ih.cons x)

theorem countP_name_unique (nm : String) (listing : List (String × Bool))
    (hnd : (listing.map Prod.fst).Nodup) (hm : (nm, true) ∈ listing) :
    listing.countP (fun e => e.1 == nm && e.2) = 1 := by
  induction listing with
  | nil => simp at hm
  | cons hd tl ih =>
      obtain ⟨n₀, b₀⟩ := hd
      simp only [List.map_cons, List.nodup_cons] at hnd
      rcases List.mem_cons.mp hm with heq | hmem
      · injection heq with h1 h2
        subst h1; subst h2
        rw [List.countP_cons]
        have hz : tl.countP (fun e => e.1 == nm && e.2) = 0 := by
          rw [List.countP_eq_zero]
          intro e he
          have hne : e.1 ≠ nm := by
            intro hh
            exact hnd.1 (hh ▸ List.mem_map.mpr ⟨e, he, rfl⟩)
          simp [hne]
        simp [hz]
      · rw [List.countP_cons]
        have hne : n₀ ≠ nm := by
          intro hh; subst hh
          exact hnd.1 (List.mem_map.mpr ⟨(n₀, true), hmem, rfl⟩)
        simp [hne, ih hnd.2 hmem]

/-! ## Claim theorems -/

/-- C5: when the dependency-generation script is invoked without
`--node-map`, the default loading branch reads the local variable
`fallback` before any assignment to it exists, so for every such invocation
— whether or not the preferred extension-node-map file exists — evaluation
raises `NameError` instead of loading the map or reporting the documented
fatal missing-file error. -/
theorem C5_default_nodemap_branch_always_name_error :
    ∀ (preferredExists : Bool) (fallbackExists : String → Bool),
      loadNodeMapDefaultBranch none preferredExists fallbackExists =
        LoadNodeMapResult.nameError := by
  intro pe fe
  cases pe <;> rfl

/-- C9: every workflow node name that is in the built-in set or matches a
built-in pattern is assigned to no plugin group and never appears in the
unresolved list of the Resolver's output. -/
theorem C9_builtin_nodes_skipped_entirely :
    ∀ (workflow builtin_nodes : List String) (builtin_patterns : List (String → Bool))
      (ntp : List (String × List String)) (pm : List (String × List (String × J)))
      (pre : List (String × String)) (pats : List ((String → Bool) × String))
      (ov : List (String × String)) (n : String),
      (n ∈ builtin_nodes ∨ ∃ p ∈ builtin_patterns, p n = true) →
      (∀ g ∈ (resolve_dependencies workflow builtin_nodes builtin_patterns ntp pm pre pats ov).1,
          n ∉ g.nodes) ∧
        n ∉ (resolve_dependencies workflow builtin_nodes builtin_patterns ntp pm pre pats ov).2 := by
  intro workflow bn bp ntp pm pre pats ov n h
  have hB : isBuiltin bn bp n = true := by
    unfold isBuiltin
    rcases h with h | ⟨p, hp, hpn⟩
    · simp [h]
    · refine Bool.or_eq_true_iff.mpr (Or.inr ?_)
      exact List.any_eq_true.mpr ⟨p, hp, hpn⟩
  constructor
  · intro g hg hn
    have hmem : ∃ g' ∈ (resolve_dependencies workflow bn bp ntp pm pre pats ov).1,
        g'.id = g.id ∧ n ∈ g'.nodes := ⟨g, hg, rfl, hn⟩
    rw [resolve_dependencies_group_mem] at hmem
    rw [hB] at hmem
    cases hmem.2.1
  · intro hn
    rw [resolve_dependencies_unresolved_mem] at hn
    rw [hB] at hn
    cases hn.2.1

/-- Witness for C9 at a concrete input. -/
theorem C9_builtin_nodes_skipped_entirely_witness :
    (∀ g ∈ (resolve_dependencies ["X"] ["X"] [] [] [] [] [] []).1, "X" ∉ g.nodes) ∧
      "X" ∉ (resolve_dependencies ["X"] ["X"] [] [] [] [] [] []).2 :=
  C9_builtin_nodes_skipped_entirely ["X"] ["X"] [] [] [] [] [] [] "X" (Or.inl (by simp))

/-- C2: for a non-built-in workflow node for which a manual override, a
preemption entry, a provider list and a matching declared pattern all exist
and pairwise disagree, the Resolver assigns the node to the override's
plugin id and to no other group, and does not mark it unresolved. -/
theorem C2_override_wins_precedence :
    ∀ (workflow builtin_nodes : List String) (builtin_patterns : List (String → Bool))
      (ntp : List (String × List String)) (pm : List (String × List (String × J)))
      (pre : List (String × String)) (pats : List ((String → Bool) × String))
      (ov : List (String × String)) (n po pp c pr : String) (cs : List String),
      n ∈ workflow →
      isBuiltin builtin_nodes builtin_patterns n = false →
      assocGet ov n = some po →
      assocGet pre n = some pp →
      assocGet ntp n = some (c :: cs) →
      (pats.find? (fun pe => pe.1 n)).map (·.2) = some pr →
      po ≠ pp → po ≠ c → po ≠ pr → pp ≠ c → pp ≠ pr → c ≠ pr →
      (∃ g ∈ (resolve_dependencies workflow builtin_nodes builtin_patterns ntp pm pre pats ov).1,
          g.id = po ∧ n ∈ g.nodes) ∧
      (∀ g ∈ (resolve_dependencies workflow builtin_nodes builtin_patterns ntp pm pre pats ov).1,
          n ∈ g.nodes → g.id = po) ∧
      n ∉ (resolve_dependencies workflow builtin_nodes builtin_patterns ntp pm pre pats ov).2 := by
  intro workflow bn bp ntp pm pre pats ov n po pp c pr cs hw hb hov hpre hntp hpat
    h1 h2 h3 h4 h5 h6
  have hR : resolveNode ntp pre pats ov n = some po := by
    simp [resolveNode, hov]
  refine ⟨?_, ?_, ?_⟩
  · rw [resolve_dependencies_group_mem]
    exact ⟨hw, hb, hR⟩
  · intro g hg hn
    have hmem : ∃ g' ∈ (resolve_dependencies workflow bn bp ntp pm pre pats ov).1,
        g'.id = g.id ∧ n ∈ g'.nodes := ⟨g, hg, rfl, hn⟩
    rw [resolve_dependencies_group_mem] at hmem
    have := hmem.2.2
    rw [hR] at this
    injection this with h
    exact h.symm
  · intro hn
    rw [resolve_dependencies_unresolved_mem] at hn
    have := hn.2.2
    rw [hR] at this
    cases this

/-- Witness for C2 at a concrete input with all four conflicting signals. -/
theorem C2_override_wins_precedence_witness :
    (∃ g ∈ (resolve_dependencies ["N"] [] [] [("N", ["C"])] [] [("N", "P")]
        [(fun s => s == "N", "R")] [("N", "O")]).1, g.id = "O" ∧ "N" ∈ g.nodes) ∧
    (∀ g ∈ (resolve_dependencies ["N"] [] [] [("N", ["C"])] [] [("N", "P")]
        [(fun s => s == "N", "R")] [("N", "O")]).1, "N" ∈ g.nodes → g.id = "O") ∧
    "N" ∉ (resolve_dependencies ["N"] [] [] [("N", ["C"])] [] [("N", "P")]
        [(fun s => s == "N", "R")] [("N", "O")]).2 :=
  C2_override_wins_precedence ["N"] [] [] [("N", ["C"])] [] [("N", "P")]
    [(fun s => s == "N", "R")] [("N", "O")] "N" "O" "P" "C" "R" []
    (by simp) rfl rfl rfl rfl rfl
    (by decide) (by decide) (by decide) (by decide) (by decide) (by decide)

/-- C8: a plan with repository URL and slug whose target directory already
exists is never fetched (no subprocess or directory event at all), gets
status `skipped`, and its requirement list is populated by scanning the
existing directory; such a `skipped` plan participates in aggregation. -/
theorem C8_existing_directory_skipped_not_refetched :
    ∀ (plan : PluginPlan) (env : CloneEnv) (url slug : String),
      plan.repo_url = some url → plan.slug = some slug →
      env.targetExists slug = true →
      clone_plugin plan env =
        ({ plan with
             status := "skipped"
             message := some "目录已存在，跳过克隆"
             requirements := find_requirement_files (env.root ++ "/" ++ slug)
               (env.listing slug) }, []) ∧
      ∀ (read : String → Option (List String)) (kp kv : List String),
        collect_requirements [(clone_plugin plan env).1] read kp kv =
          ((find_requirement_files (env.root ++ "/" ++ slug) (env.listing slug)).foldl
            (collectFile read) ⟨kp, kv, []⟩).collected := by
  intro plan env url slug hu hs ht
  have h1 : clone_plugin plan env =
      ({ plan with
           status := "skipped"
           message := some "目录已存在，跳过克隆"
           requirements := find_requirement_files (env.root ++ "/" ++ slug)
             (env.listing slug) }, []) := by
    unfold clone_plugin
    rw [hu, hs]
    simp [ht]
  refine ⟨h1, ?_⟩
  intro read kp kv
  rw [h1]
  simp [collect_requirements]

/-- Witness for C8 at a concrete plan and environment. -/
theorem C8_existing_directory_skipped_not_refetched_witness :
    clone_plugin
        { plugin_id := "p", nodes := [], repo_url := some "https://h/x", slug := some "x",
          reason := some "plugin_id" }
        { root := "root", targetExists := fun _ => true,
          listing := fun _ => [("requirements.txt", true)], fetch := fun _ => .ok } =
      ({ plugin_id := "p", nodes := [], repo_url := some "https://h/x", slug := some "x",
         reason := some "plugin_id", status := "skipped",
         message := some "目录已存在，跳过克隆",
         requirements := find_requirement_files ("root" ++ "/" ++ "x")
           [("requirements.txt", true)] }, []) ∧
    ∀ (read : String → Option (List String)) (kp kv : List String),
      collect_requirements
          [(clone_plugin
              { plugin_id := "p", nodes := [], repo_url := some "https://h/x",
                slug := some "x", reason := some "plugin_id" }
              { root := "root", targetExists := fun _ => true,
                listing := fun _ => [("requirements.txt", true)],
                fetch := fun _ => .ok }).1] read kp kv =
        ((find_requirement_files ("root" ++ "/" ++ "x") [("requirements.txt", true)]).foldl
          (collectFile read) ⟨kp, kv, []⟩).collected :=
  C8_existing_directory_skipped_not_refetched _ _ "https://h/x" "x" rfl rfl rfl

/-- C3: with a baseline containing `numpy>=1.0`, a plugin requirements file
containing `NumPy==1.2` and `git+https://example.com/foo.git` yields exactly
the `git+` line — package keys fold case and underscores, baseline keys are
loaded first, and a later occurrence of an already-seen package key is
dropped. -/
theorem C3_baseline_dedup_scenario :
    parse_requirement_line "numpy>=1.0" = some ⟨"numpy>=1.0", "package", "numpy"⟩ ∧
    parse_requirement_line "NumPy==1.2" = some ⟨"NumPy==1.2", "package", "numpy"⟩ ∧
    parse_requirement_line "My_Pkg==2" = some ⟨"My_Pkg==2", "package", "my-pkg"⟩ ∧
    collect_requirements [c3plan] c3read
        (load_known_requirements [some ["numpy>=1.0"], none]).1
        (load_known_requirements [some ["numpy>=1.0"], none]).2
      = ["git+https://example.com/foo.git"] ∧
    (∀ (st : CollectSt) (line : String) (e : RequirementEntry),
      parse_requirement_line line = some e → e.kind = "package" → e.key ∈ st.packages →
      collectLine st line = st) := by
  refine ⟨rfl, rfl, rfl, rfl, ?_⟩
  intro st line e hp hk hmem
  simp [collectLine, hp, hk, hmem]

/-- Witness for C3's generic later-occurrence-dropped conjunct. -/
theorem C3_baseline_dedup_scenario_witness :
    collectLine ⟨["numpy"], [], []⟩ "NumPy==1.2" = ⟨["numpy"], [], []⟩ :=
  C3_baseline_dedup_scenario.2.2.2.2 ⟨["numpy"], [], []⟩ "NumPy==1.2"
    ⟨"NumPy==1.2", "package", "numpy"⟩ rfl rfl (by simp)

/-- Counterexample to C1 as stated: the plugin id itself normalizes, yet the
plan carries the URL from the metadata `repo` key — `plan_plugins` consults
the metadata first, not the id first. -/
theorem C1_counterexample_metadata_checked_first :
    normalize_git_url (some "https://id.example/x") = some "https://id.example/x" ∧
    (plan_plugins c1deps).1.map (·.repo_url) = [some "https://meta.example/y"] ∧
    (some "https://meta.example/y" : Option String) ≠ some "https://id.example/x" :=
  ⟨rfl, rfl, by decide⟩

/-- Counterexample to C6 as stated: both raw ids canonicalize to `R`, the
first entry's metadata sets `title := "A"`, and the second entry's non-null
`title := "B"` overrides the already-set key (the claim says already-set
keys are left unchanged). -/
theorem C6_counterexample_later_overrides_set_key :
    canonicalOf c6cat "u1" = "R" ∧ canonicalOf c6cat "u2" = "R" ∧
    dictGet (parseVal (J.arr [J.arr [J.str "N1"], J.obj [("title", J.str "A")]])).2 "title" =
      some (J.str "A") ∧
    dictGet ((assocGet (load_extension_node_map c6raw c6cat (fun _ => true)).plugin_metadata
        "R").getD []) "title" = some (J.str "B") :=
  ⟨rfl, rfl, rfl, rfl⟩

/-- Counterexample to C7 as stated: three plugins derive the same base slug
`a`, but because an earlier plugin already owns the slug `a-2`, the second
colliding plugin receives `a-3`, not `a-2`. -/
theorem C7_counterexample_suffix_skips_taken_slug :
    baseSlug "https://x/a" = "a" ∧ baseSlug "https://y/a" = "a" ∧
    baseSlug "https://z/a" = "a" ∧
    (∀ url used, derive_slug url used = ensure_unique_slug (baseSlug url) used) ∧
    (plan_plugins c7deps).1.map (·.slug) = [some "a-2", some "a", some "a-3", some "a-4"] ∧
    (some "a-3" : Option String) ≠ some "a-2" :=
  ⟨rfl, rfl, rfl, fun _ _ => rfl, rfl, by decide⟩

/-- C1 amended: for every plugin group (dict entry of the manifest), the
plan's repository URL is derived by inspecting the metadata keys `repo`,
`repository`, `github`, `git`, `url`, `homepage` in priority order, taking
the first string value that normalizes, and only when none does by
normalizing the plugin id itself; the plan carries no URL when neither
yields one (`specRepoUrl` states this amended derivation independently). -/
theorem C1_amended_metadata_first_then_id :
    ∀ (entries : List J) (used : List String),
      (planList entries used).map (·.repo_url) =
        (entries.filterMap (fun e => match e with | J.obj kvs => some kvs | _ => none)).map
          (fun kvs => specRepoUrl (entryId kvs)
            (match dictGet kvs "metadata" with | some (J.obj m) => some m | _ => none)) := by
  intro entries
  induction entries with
  | nil => intro used; rfl
  | cons e rest ih =>
      intro used
      cases e with
      | obj kvs =>
          rcases hmk : mkPlan kvs used with ⟨p, used'⟩
          simp only [planList, hmk, List.map_cons, List.filterMap_cons]
          rw [ih used']
          have hrepo := mkPlan_repo_url kvs used
          rw [hmk] at hrepo
          simp only at hrepo
          simp [hrepo]
      | null => simpa [planList] using ih used
      | bool b => simpa [planList] using ih used
      | num x => simpa [planList] using ih used
      | str s => simpa [planList] using ih used
      | arr xs => simpa [planList] using ih used

/-- C6 amended: when two raw catalog ids canonicalize to the same canonical
id, the Catalog Builder unions their node-name sets, and merges their
metadata by Python truthiness of the stored dict: when the earlier combined
metadata is non-empty it is updated with the later entry's non-null values —
overriding already-set keys, null values never overriding — and when it is
empty the later entry's combined metadata replaces it wholesale, null values
included. -/
theorem C6_amended_merge_union_and_override :
    ∀ (id1 id2 c : String) (v1 v2 : J) (cat : List (String × List (String × J)))
      (ok : String → Bool),
      canonicalOf cat id1 = c → canonicalOf cat id2 = c →
      assocGet (load_extension_node_map [(id1, v1), (id2, v2)] cat ok).plugin_metadata c =
        some (if (combineMeta cat id1 (parseVal v1).2).isEmpty then
            combineMeta cat id2 (parseVal v2).2
          else
            dictUpdate (combineMeta cat id1 (parseVal v1).2)
              (filterNonNull (combineMeta cat id2 (parseVal v2).2))) ∧
      (∀ n ∈ (parseVal v1).1 ++ (parseVal v2).1, ¬(pyStrip n).data.isEmpty = true →
        c ∈ lookupList
          (load_extension_node_map [(id1, v1), (id2, v2)] cat ok).node_to_plugins (pyStrip n)) := by
  intro id1 id2 c v1 v2 cat ok h1 h2
  have hload : load_extension_node_map [(id1, v1), (id2, v2)] cat ok =
      catalogStep cat ok (catalogStep cat ok ⟨[], [], [], [], []⟩ (id1, v1)) (id2, v2) := rfl
  have hpm1 : (catalogStep cat ok ⟨[], [], [], [], []⟩ (id1, v1)).plugin_metadata =
      [(c, combineMeta cat id1 (parseVal v1).2)] := by
    rw [catalogStep_plugin_metadata]
    simp [h1, assocGet, assocSet]
  have hntp1 : (catalogStep cat ok ⟨[], [], [], [], []⟩ (id1, v1)).node_to_plugins =
      ntpAdd c [] (parseVal v1).1 := by
    rw [catalogStep_node_to_plugins]
    simp [h1]
  constructor
  · rw [hload, catalogStep_plugin_metadata, hpm1]
    by_cases he : (combineMeta cat id1 (parseVal v1).2).isEmpty
    · simp [h2, assocGet, assocSet, he]
    · simp [h2, assocGet, assocSet, he]
  · intro n hmem hne
    have hntp2 : (load_extension_node_map [(id1, v1), (id2, v2)] cat ok).node_to_plugins =
        ntpAdd c (ntpAdd c [] (parseVal v1).1) (parseVal v2).1 := by
      rw [hload, catalogStep_node_to_plugins, hntp1]
      simp [h2]
    rw [hntp2]
    rcases List.mem_append.mp hmem with hm1 | hm2
    · exact lookupList_ntpAdd_mono c _ _ _ _ (lookupList_ntpAdd_mem c _ [] n hm1 hne)
    · exact lookupList_ntpAdd_mem c _ _ n hm2 hne

/-- Witness for C6 amended at the concrete counterexample inputs. -/
theorem C6_amended_merge_union_and_override_witness :
    assocGet (load_extension_node_map
        [("u1", J.arr [J.arr [J.str "N1"], J.obj [("title", J.str "A")]]),
         ("u2", J.arr [J.arr [J.str "N2"], J.obj [("title", J.str "B")]])]
        c6cat (fun _ => true)).plugin_metadata "R" =
      some (if (combineMeta c6cat "u1"
            (parseVal (J.arr [J.arr [J.str "N1"], J.obj [("title", J.str "A")]])).2).isEmpty then
          combineMeta c6cat "u2"
            (parseVal (J.arr [J.arr [J.str "N2"], J.obj [("title", J.str "B")]])).2
        else
          dictUpdate
            (combineMeta c6cat "u1"
              (parseVal (J.arr [J.arr [J.str "N1"], J.obj [("title", J.str "A")]])).2)
            (filterNonNull (combineMeta c6cat "u2"
              (parseVal (J.arr [J.arr [J.str "N2"], J.obj [("title", J.str "B")]])).2))) ∧
    (∀ n ∈ (parseVal (J.arr [J.arr [J.str "N1"], J.obj [("title", J.str "A")]])).1 ++
        (parseVal (J.arr [J.arr [J.str "N2"], J.obj [("title", J.str "B")]])).1,
      ¬(pyStrip n).data.isEmpty = true →
      "R" ∈ lookupList (load_extension_node_map
        [("u1", J.arr [J.arr [J.str "N1"], J.obj [("title", J.str "A")]]),
         ("u2", J.arr [J.arr [J.str "N2"], J.obj [("title", J.str "B")]])]
        c6cat (fun _ => true)).node_to_plugins (pyStrip n)) :=
  C6_amended_merge_union_and_override "u1" "u2" "R"
    (J.arr [J.arr [J.str "N1"], J.obj [("title", J.str "A")]])
    (J.arr [J.arr [J.str "N2"], J.obj [("title", J.str "B")]])
    c6cat (fun _ => true) rfl rfl

/-- C7 amended: every plan with a repository URL gets a slug and vice versa,
all assigned slugs in one run are pairwise distinct, and a base slug already
in use receives the smallest `-k` suffix (k ≥ 2) whose suffixed form is not
already used — in particular, when the suffixed forms are not otherwise
taken, the second colliding plugin gets `-2` and the third `-3`. -/
theorem C7_amended_slug_uniqueness :
    ∀ (s : String) (used : List String),
      s ∉ used → (s ++ "-2") ∉ used → (s ++ "-3") ∉ used →
      ((ensure_unique_slug s used).1 = s ∧
       (ensure_unique_slug s (ensure_unique_slug s used).2).1 = s ++ "-2" ∧
       (ensure_unique_slug s
         (ensure_unique_slug s (ensure_unique_slug s used).2).2).1 = s ++ "-3") ∧
      (∀ (entries : List J) (us : List String) (p : PluginPlan),
        p ∈ planList entries us → p.repo_url.isSome = p.slug.isSome) ∧
      (∀ (entries : List J) (us : List String),
        ((planList entries us).filterMap (·.slug)).Nodup) := by
  intro s used hs hs2 hs3
  have hlen2 : ("-2" : String).data.length ≠ 0 := by decide
  have hlen3 : ("-3" : String).data.length ≠ 0 := by decide
  have h1 : ensure_unique_slug s used = (s, s :: used) := by
    simp [ensure_unique_slug, hs]
  have hne2 : (s ++ "-2") ∉ s :: used := by
    intro h
    rcases List.mem_cons.mp h with heq | hm
    · exact suffix_ne_base s "-2" hlen2 heq
    · exact hs2 hm
  have h2 : ensure_unique_slug s (s :: used) = (s ++ "-2", (s ++ "-2") :: s :: used) := by
    have hm : s ∈ s :: used := List.mem_cons_self _ _
    have hfuel : (s :: used).length + 1 = used.length + 1 + 1 := by simp
    simp only [ensure_unique_slug, if_pos hm, hfuel, findFree_step, cand_two]
    rw [if_neg hne2]
  have hne3 : (s ++ "-3") ∉ (s ++ "-2") :: s :: used := by
    intro h
    rcases List.mem_cons.mp h with heq | h
    · have : ("-3" : String) = "-2" := by
        have h' : s ++ "-3" = s ++ "-2" := heq
        exact string_append_cancel_left h'
      exact absurd this (by decide)
    rcases List.mem_cons.mp h with heq | hm
    · exact suffix_ne_base s "-3" hlen3 heq
    · exact hs3 hm
  have hm2 : (s ++ "-2") ∈ (s ++ "-2") :: s :: used := List.mem_cons_self _ _
  have h3 : ensure_unique_slug s ((s ++ "-2") :: s :: used) =
      (s ++ "-3", (s ++ "-3") :: (s ++ "-2") :: s :: used) := by
    have hm : s ∈ (s ++ "-2") :: s :: used :=
      List.mem_cons_of_mem _ (List.mem_cons_self _ _)
    have hfuel : ((s ++ "-2") :: s :: used).length + 1 = used.length + 2 + 1 := by simp
    simp only [ensure_unique_slug, if_pos hm, hfuel, findFree_step, cand_two]
    rw [if_pos hm2]
    have hc3 : s ++ "-" ++ natRepr (2 + 1) = s ++ "-3" := by rw [str_append_assoc]; rfl
    rw [hc3, if_neg hne3]
  refine ⟨?_, planList_url_iff_slug, fun entries us => (planList_slug_inv entries us).2⟩
  rw [h1]
  refine ⟨rfl, ?_, ?_⟩
  · rw [h2]
  · rw [h2, h3]

/-- Witness for C7 amended at the concrete input `s = "a"`, `used = []`. -/
theorem C7_amended_slug_uniqueness_witness :
    ((ensure_unique_slug "a" []).1 = "a" ∧
     (ensure_unique_slug "a" (ensure_unique_slug "a" []).2).1 = "a" ++ "-2" ∧
     (ensure_unique_slug "a"
       (ensure_unique_slug "a" (ensure_unique_slug "a" []).2).2).1 = "a" ++ "-3") ∧
    (∀ (entries : List J) (us : List String) (p : PluginPlan),
      p ∈ planList entries us → p.repo_url.isSome = p.slug.isSome) ∧
    (∀ (entries : List J) (us : List String),
      ((planList entries us).filterMap (·.slug)).Nodup) :=
  C7_amended_slug_uniqueness "a" [] (by simp) (by simp) (by simp)

/-- C10: for a materialized plugin directory containing a regular file named
exactly `requirements`, discovery returns that file's path twice (once from
the `requirements*` glob, once from the standalone check), the written
summary carries the plan's requirement-file list verbatim (hence the same
path twice), and during aggregation the duplicated file is parsed twice with
only key-level deduplication preventing duplicate output lines (concretely:
its fresh line is emitted once). -/
theorem C10_standalone_requirements_discovered_twice :
    ∀ (dir : String) (listing : List (String × Bool)),
      (listing.map Prod.fst).Nodup →
      ("requirements", true) ∈ listing →
      (find_requirement_files dir listing).count (dir ++ "/requirements") = 2 ∧
      (∀ (plan : PluginPlan) (u c : List String),
        (write_summary [plan] u c).workflow_plugins.map (·.requirements_files) =
          [plan.requirements]) ∧
      collect_requirements [c10plan] c10read [] [] = ["torch"] := by
  intro dir listing hnd hm
  refine ⟨?_, fun plan u c => rfl, rfl⟩
  unfold find_requirement_files
  have hcond : listing.any (fun e => e.1 = "requirements" && e.2) = true :=
    List.any_eq_true.mpr ⟨("requirements", true), hm, by simp⟩
  rw [if_pos hcond]
  rw [List.count_append]
  have hone : (((sortBy (fun a b => strLe a.1 b.1)
      (listing.filter (fun e => pyStartsWith e.1 "requirements"))).filter (·.2)).map
        (fun e => dir ++ "/" ++ e.1)).count (dir ++ "/requirements") = 1 := by
    rw [List.count_eq_countP, List.countP_map]
    have hcomp : ((fun x => x == dir ++ "/requirements") ∘
        fun (e : String × Bool) => dir ++ "/" ++ e.1) =
          fun (e : String × Bool) => (dir ++ "/" ++ e.1 == dir ++ "/requirements") := rfl
    rw [hcomp]
    have hpt : ∀ e : String × Bool,
        ((dir ++ "/" ++ e.1 == dir ++ "/requirements") = true) ↔
          ((e.1 == "requirements") = true) := by
      intro e
      rw [beq_iff_eq, beq_iff_eq]
      constructor
      · intro h'
        rw [str_append_assoc] at h'
        have h'' := string_append_cancel_left h'
        have h3 : ("/" : String) ++ e.1 = "/" ++ "requirements" := by rw [h'']; rfl
        exact string_append_cancel_left h3
      · intro h'
        rw [h', str_append_assoc]
        rfl
    rw [List.countP_congr (fun e _ => hpt e)]
    rw [List.countP_filter]
    rw [List.Perm.countP_eq _ (perm_sortBy _ _)]
    rw [List.countP_filter]
    have hpt2 : ∀ e : String × Bool,
        (((e.1 == "requirements") && e.2 && pyStartsWith e.1 "requirements") = true) ↔
          (((e.1 == "requirements") && e.2) = true) := by
      intro e
      by_cases h : e.1 = "requirements"
      · have hps : pyStartsWith e.1 "requirements" = true := by rw [h]; decide
        simp [hps]
      · have hb : (e.1 == "requirements") = false := beq_eq_false_iff_ne.mpr h
        simp [hb]
    rw [List.countP_congr (fun e _ => hpt2 e)]
    exact countP_name_unique "requirements" listing hnd hm
  rw [hone]
  simp [List.count_cons]

/-- Witness for C10 at a concrete listing. -/
theorem C10_standalone_requirements_discovered_twice_witness :
    (find_requirement_files "root/q" [("requirements", true), ("other.txt", true)]).count
        ("root/q" ++ "/requirements") = 2 ∧
    (∀ (plan : PluginPlan) (u c : List String),
      (write_summary [plan] u c).workflow_plugins.map (·.requirements_files) =
        [plan.requirements]) ∧
    collect_requirements [c10plan] c10read [] [] = ["torch"] :=
  C10_standalone_requirements_discovered_twice "root/q"
    [("requirements", true), ("other.txt", true)] (by decide) (by decide)

/-- C4: on a parsed, non-raising deps manifest, `main` exits non-zero iff
some processed plan lacks a repository URL or some clone attempt failed;
unresolved nodes alone never cause a non-zero exit (the right-hand side does
not mention them); and before a non-zero exit the summary reflecting every
attempted plugin is written and the aggregated requirements output has been
written (or the stale file removed). -/
theorem C4_exit_code_contract :
    ∀ env : MainEnv, depsWFb env.deps = true →
      (((mainRun env).exitCode ≠ 0) ↔
        ∃ p ∈ mainProcessed env, p.repo_url = none ∨ p.status = "failed") ∧
      ((mainRun env).exitCode ≠ 0 →
        Event.summaryWrite env.summaryPath
            (write_summary (mainProcessed env) (plan_plugins env.deps).2 (mainCollected env))
          ∈ (mainRun env).trace ∧
        (mainCollected env ≠ [] →
          Event.reqWrite env.reqOutputPath (mainCollected env) ∈ (mainRun env).trace) ∧
        (mainCollected env = [] → env.reqOutputExists = true →
          Event.reqRemove env.reqOutputPath ∈ (mainRun env).trace)) := by
  intro env hwf
  by_cases hde : env.depsExists = true
  · rcases hpp : plan_plugins env.deps with ⟨plans, unresolved⟩
    have hunres : (plan_plugins env.deps).2 = unresolved := by rw [hpp]
    by_cases hpe : plans.isEmpty = true
    · have hrun : mainRun env =
          ⟨(if env.reqOutputExists then [Event.reqRemove env.reqOutputPath] else []) ++
            [Event.summaryWrite env.summaryPath (write_summary [] unresolved [])], 0⟩ := by
        simp [mainRun, hde, hpp, hpe]
      have hproc : mainProcessed env = [] := by
        simp [mainProcessed, hde, hpp, hpe]
      rw [hrun, hproc]
      constructor
      · simp
      · intro h
        simp at h
    · rcases hcp : clonePlans plans env.cloneEnv with ⟨processed, cloneEvents⟩
      have hproc : mainProcessed env = processed := by
        simp [mainProcessed, hde, hpp, hpe, hcp]
      rcases hkn : load_known_requirements [env.pak3, env.pak7] with ⟨kp, kv⟩
      have hcol : mainCollected env = collect_requirements processed env.readFile kp kv := by
        simp [mainCollected, hproc, mainKnown, hkn]
      have hrun : mainRun env =
          ⟨[Event.mkdirParent env.cloneEnv.root] ++ cloneEvents ++
            (if !(collect_requirements processed env.readFile kp kv).isEmpty then
              [Event.reqWrite env.reqOutputPath
                (collect_requirements processed env.readFile kp kv)]
             else if env.reqOutputExists then [Event.reqRemove env.reqOutputPath] else []) ++
            [Event.summaryWrite env.summaryPath
              (write_summary processed unresolved
                (collect_requirements processed env.readFile kp kv))],
            if 0 < processed.countP (fun p => p.repo_url = none) +
                 processed.countP (fun p => p.status = "failed") then 1 else 0⟩ := by
        simp [mainRun, hde, hpp, hpe, hcp, hkn]
      have hiff : (0 < processed.countP (fun p => decide (p.repo_url = none)) +
            processed.countP (fun p => decide (p.status = "failed"))) ↔
          ∃ p ∈ processed, p.repo_url = none ∨ p.status = "failed" := by
        rw [add_pos_iff]
        constructor
        · rintro (h | h)
          · obtain ⟨p, hp, hb⟩ := List.countP_pos_iff.mp h
            exact ⟨p, hp, Or.inl (of_decide_eq_true hb)⟩
          · obtain ⟨p, hp, hb⟩ := List.countP_pos_iff.mp h
            exact ⟨p, hp, Or.inr (of_decide_eq_true hb)⟩
        · rintro ⟨p, hp, h | h⟩
          · exact Or.inl (List.countP_pos_iff.mpr ⟨p, hp, decide_eq_true h⟩)
          · exact Or.inr (List.countP_pos_iff.mpr ⟨p, hp, decide_eq_true h⟩)
      simp only [hrun, hproc, hcol, hpp]
      constructor
      · by_cases hc : 0 < processed.countP (fun p => decide (p.repo_url = none)) +
            processed.countP (fun p => decide (p.status = "failed"))
        · rw [if_pos hc]
          simp [hiff.mp hc]
        · rw [if_neg hc]
          constructor
          · intro h
            exact absurd rfl h
          · intro hex
            exact absurd (hiff.mpr hex) hc
      · intro hne
        refine ⟨by simp, ?_, ?_⟩
        · intro hccne
          have hb : (!(collect_requirements processed env.readFile kp kv).isEmpty) = true := by
            simp [List.isEmpty_iff, hccne]
          simp [hb]
        · intro hcc hroe
          have hb : (!(collect_requirements processed env.readFile kp kv).isEmpty) = false := by
            simp [List.isEmpty_iff, hcc]
          simp [hb, hroe]
  · have hde' : env.depsExists = false := by
      revert hde; cases env.depsExists <;> simp
    have hrun : mainRun env = ⟨[], 0⟩ := by simp [mainRun, hde']
    have hproc : mainProcessed env = [] := by simp [mainProcessed, hde']
    rw [hrun, hproc]
    constructor
    · simp
    · intro h
      simp at h

/-- Witness for C4 at the concrete environment `c4env`. -/
theorem C4_exit_code_contract_witness :
    (((mainRun c4env).exitCode ≠ 0) ↔
      ∃ p ∈ mainProcessed c4env, p.repo_url = none ∨ p.status = "failed") ∧
    ((mainRun c4env).exitCode ≠ 0 →
      Event.summaryWrite c4env.summaryPath
          (write_summary (mainProcessed c4env) (plan_plugins c4env.deps).2
            (mainCollected c4env))
        ∈ (mainRun c4env).trace ∧
      (mainCollected c4env ≠ [] →
        Event.reqWrite c4env.reqOutputPath (mainCollected c4env) ∈ (mainRun c4env).trace) ∧
      (mainCollected c4env = [] → c4env.reqOutputExists = true →
        Event.reqRemove c4env.reqOutputPath ∈ (mainRun c4env).trace)) :=
  C4_exit_code_contract c4env rfl

end AutoBuild
